import Mathlib

/-!
# aricpp: command transport, dispatch registry and client facade

A shallow embedding of `include/aricpp/httpclient.h` (class `HttpClient`) and
`aricpp/client.h` (class `Client`).

The program is single threaded and callback driven.  Every member function and every
completion lambda of the source becomes a function on an explicit state; an asynchronous
operation that was started and has not completed yet is an entry of `outstanding`, and the
reactor delivering a completion is the function `complete`.  Application callbacks are part
of the input: a callback is a function that says what the application does when it is
called (how it changes its own state, which requests it submits re-entrantly, and whether
it raises).
-/

namespace aricpp

/-! ## Values shared by the transport and the facade -/

/-- Value of a `boost::system::error_code`: `0` is success, and the test `if (e)` of the
source is `e ≠ 0`. -/
abbrev error_code := Nat

/-- The enum class `Method` of `method.h`. -/
inductive Method where
  | get
  | post
  | put
  | delete_
  deriving DecidableEq, Repr

/-- The enum `boost::beast::http::verb`, restricted to the four values `ToBeast` produces. -/
inductive verb where
  | get
  | post
  | put
  | delete_
  deriving DecidableEq, Repr

/-- The function `ToBeast` of `method.h`: the table lookup by enum value. -/
def ToBeast : Method → verb
  | .get => .get
  | .post => .post
  | .put => .put
  | .delete_ => .delete_

/-- The parsed message `resp` after a read: `result` is the underlying unsigned value of the
`boost::beast::http::status` returned by `resp.result()`, `reason` is `resp.reason()`,
`body` is `resp.body()`. -/
structure Response where
  result : Nat
  reason : String
  body : String
  deriving DecidableEq, Repr

/-- The message `request` as `Write` prepares it (framing headers added by
`prepare_payload` are not represented). -/
structure HttpRequest where
  version : Nat
  method : verb
  target : String
  host : String
  authorization : String
  user_agent : String
  content_type : String
  body : String
  deriving DecidableEq, Repr

/-- What one call of an application response callback does, seen from the transport:
the application state it leaves, the requests it submitted through `SendRequest` while it
ran (in call order), and whether it left by raising instead of returning. -/
structure CbResult (σ R : Type) where
  app : σ
  submits : List R
  throws : Bool

/-- The struct `HttpClient::Request`: method, url, body and the response handler.  The
handler takes the four arguments of `ResponseHandler` and the application state. -/
inductive Request (σ : Type) where
  | mk (method : Method) (url : String) (body : String)
      (onResponse : error_code → Nat → String → String → σ → CbResult σ (Request σ))

/-- Field `method` of `Request`. -/
def Request.method {σ : Type} : Request σ → Method
  | .mk m _ _ _ => m

/-- Field `url` of `Request`. -/
def Request.url {σ : Type} : Request σ → String
  | .mk _ u _ _ => u

/-- Field `body` of `Request`. -/
def Request.body {σ : Type} : Request σ → String
  | .mk _ _ b _ => b

/-- Field `onResponse` of `Request`. -/
def Request.onResponse {σ : Type} :
    Request σ → error_code → Nat → String → String → σ → CbResult σ (Request σ)
  | .mk _ _ _ h => h

/-- A response callback that always returns normally and submits nothing while it runs. -/
def Request.plain {σ : Type} (r : Request σ) : Prop :=
  ∀ e status reason body app,
    (r.onResponse e status reason body app).submits = [] ∧
    (r.onResponse e status reason body app).throws = false

/-- A response callback that always returns normally (it may submit requests). -/
def Request.returns {σ : Type} (r : Request σ) : Prop :=
  ∀ e status reason body app, (r.onResponse e status reason body app).throws = false

/-! ## The command transport `HttpClient` -/

/-- The four asynchronous operations the transport starts. -/
inductive Op where
  | resolve
  | connect
  | write
  | read
  deriving DecidableEq, Repr

/-- One call of a response handler: the request whose handler was called and the four
arguments it was called with. -/
structure Invocation (σ : Type) where
  req : Request σ
  e : error_code
  status : Nat
  reason : String
  body : String

/-- The members of `HttpClient` that the member functions read or write.  `socketOpen` is
`socket.is_open()`; `resp = none` is the cleared response; `outstanding` lists the
asynchronous operations started and not yet completed; `invoked` records every call of a
response handler, oldest first. -/
structure HttpClient (σ : Type) where
  host : String
  port : String
  auth : String
  socketOpen : Bool
  resp : Option Response
  request : Option HttpRequest
  pending : List (Request σ)
  outstanding : List Op
  invoked : List (Invocation σ)

/-- The constructor: nothing queued, socket closed, no operation started.  `auth` is the
value `GetBasicAuth(user, password)`. -/
def HttpClient.init (σ : Type) (host port auth : String) : HttpClient σ :=
  { host := host, port := port, auth := auth, socketOpen := false, resp := none,
    request := none, pending := [], outstanding := [], invoked := [] }

/-- How a member function or completion lambda is left: by returning, by an exception that
propagates to the caller, or by a failed `assert`. -/
inductive Exit where
  | normal
  | exception
  | assertion
  deriving DecidableEq, Repr

/-- Application state, transport state and the way the code was left. -/
structure Outcome (σ : Type) where
  app : σ
  client : HttpClient σ
  exit : Exit

/-- `HttpClient::SendRequest`: enqueue, and start `async_resolve` unless the queue now
holds more than one request. -/
def SendRequest {σ : Type} (c : HttpClient σ) (_method : Method) (_url : String)
    (res : error_code → Nat → String → String → σ → CbResult σ (Request σ))
    (body : String) : HttpClient σ :=
  let c1 := { c with pending := c.pending ++ [Request.mk _method _url body res] }
  if c1.pending.length > 1 then c1
  else { c1 with outstanding := c1.outstanding ++ [Op.resolve] }

/-- `SendRequest` applied to a request value. -/
def submit {σ : Type} (c : HttpClient σ) (r : Request σ) : HttpClient σ :=
  SendRequest c r.method r.url r.onResponse r.body

/-- `HttpClient::Connect`: start `async_connect`. -/
def Connect {σ : Type} (c : HttpClient σ) : HttpClient σ :=
  { c with outstanding := c.outstanding ++ [Op.connect] }

/-- `HttpClient::Write`: assert the queue is not empty, rebuild `request` from the head
and start `async_write`. -/
def Write {σ : Type} (c : HttpClient σ) : HttpClient σ × Exit :=
  match c.pending with
  | [] => (c, Exit.assertion)
  | r :: _ =>
    ({ c with
        request := some
          { version := 11, method := ToBeast r.method, target := r.url,
            host := c.host ++ ":" ++ c.port, authorization := c.auth,
            user_agent := "aricpp", content_type := "application/json", body := r.body },
        outstanding := c.outstanding ++ [Op.write] }, Exit.normal)

/-- `HttpClient::ReadResponse`: start `async_read`. -/
def ReadResponse {σ : Type} (c : HttpClient σ) : HttpClient σ :=
  { c with outstanding := c.outstanding ++ [Op.read] }

/-- `HttpClient::CallBack`: assert the queue is not empty, call the head's handler, pop,
then close the socket when the queue is empty and `Write` otherwise.  The handler runs
while the head is still queued, so its re-entrant submissions go through `SendRequest` on
that state; when it raises, nothing after the call is executed. -/
def CallBack {σ : Type} (app : σ) (c : HttpClient σ) (e : error_code) (status : Nat)
    (reason body : String) : Outcome σ :=
  match c.pending with
  | [] => { app := app, client := c, exit := Exit.assertion }
  | r :: _ =>
    let out := r.onResponse e status reason body app
    let c1 := { c with invoked := c.invoked ++
      [{ req := r, e := e, status := status, reason := reason, body := body }] }
    let c2 := out.submits.foldl submit c1
    if out.throws then { app := out.app, client := c2, exit := Exit.exception }
    else
      let c3 := { c2 with pending := c2.pending.tail }
      if c3.pending.isEmpty then
        { app := out.app,
          client := if c3.socketOpen then { c3 with socketOpen := false } else c3,
          exit := Exit.normal }
      else
        { app := out.app, client := (Write c3).1, exit := (Write c3).2 }

/-- The completion lambda of `async_resolve` in `SendRequest`. -/
def resolveHandler {σ : Type} (app : σ) (c : HttpClient σ) (e : error_code) : Outcome σ :=
  if e ≠ 0 then CallBack app c e 0 "" ""
  else { app := app, client := Connect c, exit := Exit.normal }

/-- The completion lambda of `async_connect` in `Connect`. -/
def connectHandler {σ : Type} (app : σ) (c : HttpClient σ) (e : error_code) : Outcome σ :=
  if e ≠ 0 then CallBack app c e 0 "" ""
  else { app := app, client := (Write c).1, exit := (Write c).2 }

/-- The completion lambda of `async_write` in `Write`. -/
def writeHandler {σ : Type} (app : σ) (c : HttpClient σ) (e : error_code) : Outcome σ :=
  if e ≠ 0 then CallBack app c e 0 "" ""
  else { app := app, client := ReadResponse c, exit := Exit.normal }

/-- The completion lambda of `async_read` in `ReadResponse`: `resp` holds what was read;
on error `CallBack(e)`, otherwise `CallBack(e, resp.result(), resp.reason(), resp.body())`
(the cast of the status to its underlying unsigned type is the identity on the value);
when `CallBack` returns, the buffer and `resp` are cleared. -/
def readHandler {σ : Type} (app : σ) (c : HttpClient σ) (e : error_code)
    (read : Response) : Outcome σ :=
  let c1 := { c with resp := some read }
  let o := if e ≠ 0 then CallBack app c1 e 0 "" ""
    else CallBack app c1 e read.result read.reason read.body
  match o.exit with
  | Exit.normal => { o with client := { o.client with resp := none } }
  | _ => o

/-- What the network reports when an operation completes: the error code, the message
read (used by a read), and whether the socket is open after a failed connect. -/
structure IoResult where
  e : error_code
  resp : Response
  socketOpen : Bool
  deriving DecidableEq, Repr

/-- The reactor delivers the completion of `op`: the operation is no longer outstanding
and its completion lambda runs.  A successful connect leaves the socket open.  Nothing
happens when `op` is not outstanding. -/
def complete {σ : Type} (op : Op) (res : IoResult) (app : σ) (c : HttpClient σ) :
    Outcome σ :=
  if op ∈ c.outstanding then
    let c1 := { c with outstanding := c.outstanding.erase op }
    match op with
    | Op.resolve => resolveHandler app c1 res.e
    | Op.connect =>
      connectHandler app
        { c1 with socketOpen := if res.e = 0 then true else res.socketOpen } res.e
    | Op.write => writeHandler app c1 res.e
    | Op.read => readHandler app c1 res.e res.resp
  else { app := app, client := c, exit := Exit.normal }

/-- The reactor delivers the completion of the oldest outstanding operation. -/
def step {σ : Type} (res : IoResult) (app : σ) (c : HttpClient σ) : Outcome σ :=
  match c.outstanding with
  | [] => { app := app, client := c, exit := Exit.normal }
  | op :: _ => complete op res app c

/-- The event loop `ios.run()` fed with the results `rs` of the successive completions; it
is left at the first lambda that does not return normally. -/
def run {σ : Type} : List IoResult → σ → HttpClient σ → Outcome σ
  | [], app, c => { app := app, client := c, exit := Exit.normal }
  | res :: rs, app, c =>
    match (step res app c).exit with
    | Exit.normal => run rs (step res app c).app (step res app c).client
    | _ => step res app c

/-- The requests whose handlers were called, oldest first. -/
def served {σ : Type} (c : HttpClient σ) : List (Request σ) :=
  c.invoked.map Invocation.req

/-- Steps the transport still needs before it is idle, counted from the outstanding
operation and the queue length (two per queued request, plus resolve and connect). -/
def fuel {σ : Type} (c : HttpClient σ) : Nat :=
  match c.outstanding with
  | [] => 0
  | Op.resolve :: _ => 2 * c.pending.length + 2
  | Op.connect :: _ => 2 * c.pending.length + 1
  | Op.write :: _ => 2 * c.pending.length
  | Op.read :: _ => 2 * c.pending.length - 1

/-- Either nothing is queued and nothing is outstanding, or something is queued and exactly
one operation is outstanding. -/
def Cycle {σ : Type} (c : HttpClient σ) : Prop :=
  (c.pending = [] ∧ c.outstanding = []) ∨ (c.pending ≠ [] ∧ ∃ op, c.outstanding = [op])

/-! ## The client facade `Client` -/

/-- An exception in flight: one derived from `std::exception`, with its `what()` text, or
any other thrown value. -/
inductive Exn where
  | std (what : String)
  | other
  deriving DecidableEq, Repr

/-- A line the facade writes to `std::cerr`, by the statement that writes it. -/
inductive CerrLine where
  | wsReceive (e : error_code)
  | subscription (ec : error_code)
  | handlerException (type what : String)
  | handlerUnknown (type : String)
  | parsing (msg what : String)
  deriving DecidableEq, Repr

/-- Modelled from the spec: the class `WebSocket` (`websocket.h`) is not among the sources.
The facade only calls `Connect`, `Receive` and `Close` on it, and the stream reports a
handshake outcome or a received message by calling the lambda it was given; the state
kept here is the record of those calls: the `(path, retry interval)` of every `Connect`,
the number of `Receive` calls and the number of `Close` calls. -/
structure WebSocket where
  connects : List (String × Nat)
  receives : Nat
  closes : Nat
  deriving DecidableEq, Repr

/-- `WebSocket::Connect(path, handler, retrySeconds)`. -/
def WebSocket.Connect (ws : WebSocket) (path : String) (retry : Nat) : WebSocket :=
  { ws with connects := ws.connects ++ [(path, retry)] }

/-- `WebSocket::Receive(handler)`. -/
def WebSocket.Receive (ws : WebSocket) : WebSocket :=
  { ws with receives := ws.receives + 1 }

/-- `WebSocket::Close()`. -/
def WebSocket.Close (ws : WebSocket) : WebSocket :=
  { ws with closes := ws.closes + 1 }

/-- `Client::EventHandler`: what the handler does with a document: return (`none`) or
raise. -/
abbrev EventHandler (Tree : Type) := Tree → Option Exn

/-- `Client::ConnectHandler`: what the handler does with an error code: return (`none`)
or raise. -/
abbrev ConnectHandler := error_code → Option Exn

/-- The members of `Client` other than `httpclient`, with what the facade makes
observable: `eventHandlers` lists the entries of the multimap in iteration order;
`cerr` is the text written to `std::cerr`; `connectionCalls` records the argument of
every call of `onConnection`; `handlerCalls` records every call of an event handler as
the position of its entry in `eventHandlers` and the payload being dispatched. -/
structure Members (Tree : Type) where
  user : String
  password : String
  application : String
  websocket : WebSocket
  onConnection : Option ConnectHandler
  eventHandlers : List (String × EventHandler Tree)
  cerr : List CerrLine
  connectionCalls : List error_code
  handlerCalls : List (Nat × String)

/-- The class `Client`: its own members and the command transport, whose response
handlers act on those members. -/
structure Client (Tree : Type) where
  members : Members Tree
  httpclient : HttpClient (Members Tree)

/-- The constructor of `Client`.  `GetBasicAuth` (`basicauth.h`) is a parameter. -/
def Client.init (Tree : Type) (GetBasicAuth : String → String → String)
    (host port _user _password _application : String) : Client Tree :=
  { members :=
      { user := _user, password := _password, application := _application,
        websocket := { connects := [], receives := 0, closes := 0 },
        onConnection := none, eventHandlers := [], cerr := [], connectionCalls := [],
        handlerCalls := [] },
    httpclient := HttpClient.init (Members Tree) host port (GetBasicAuth _user _password) }

/-- A call `onConnection(e)`: an empty `std::function` raises `bad_function_call`;
otherwise the call is recorded and the handler decides how it is left. -/
def callOnConnection {Tree : Type} (m : Members Tree) (e : error_code) :
    Members Tree × Option Exn :=
  match m.onConnection with
  | none => (m, some (Exn.std "bad_function_call"))
  | some h => ({ m with connectionCalls := m.connectionCalls ++ [e] }, h e)

/-- `Client::Close`. -/
def Client.Close {Tree : Type} (c : Client Tree) : Client Tree :=
  { c with members := { c.members with websocket := c.members.websocket.Close } }

/-- `Client::Connect`: store the handler and call `websocket.Connect` with the event path. -/
def Client.Connect {Tree : Type} (c : Client Tree) (h : ConnectHandler)
    (connectionRetrySeconds : Nat) : Client Tree :=
  { c with members :=
    { c.members with
      onConnection := some h,
      websocket := c.members.websocket.Connect
        ("/ari/events?api_key=" ++ c.members.user ++ ":" ++ c.members.password ++
          "&app=" ++ c.members.application ++ "&subscribeAll=true")
        connectionRetrySeconds } }

/-- The first position of the group of equal keys that contains position `p` of the
iteration order (`p` itself when `p` is past the end or starts a group). -/
def groupStart {Tree : Type} (reg : List (String × EventHandler Tree)) : Nat → Nat
  | 0 => 0
  | p + 1 =>
    match reg[p]?, reg[p + 1]? with
    | some a, some b => if a.1 = b.1 then groupStart reg p else p + 1
    | _, _ => p + 1

/-- Where `std::unordered_multimap::insert` puts a new entry in the iteration order.  The
language fixes only that entries of equal key are adjacent; the rest is the container's
choice, given here as `slot`: when the key is present the entry goes into its group, after
`slot` of its entries (at most all of them); when it is absent the entry goes before the
group that holds position `slot` (at the end when `slot` is past the end). -/
def placement {Tree : Type} (reg : List (String × EventHandler Tree)) (type : String)
    (slot : Nat) : Nat :=
  match reg.findIdx? (fun p => p.1 == type) with
  | some i => i + min slot (reg.countP (fun p => p.1 == type))
  | none => groupStart reg (min slot reg.length)

/-- `Client::OnEvent`: insert the pair into the multimap, at the place the container
chooses (`slot`, see `placement`).  Registration order is therefore not iteration order;
the statements on dispatch hold for every registry, whatever the choices were. -/
def OnEvent {Tree : Type} (m : Members Tree) (type : String) (e : EventHandler Tree)
    (slot : Nat) : Members Tree :=
  { m with eventHandlers :=
      m.eventHandlers.take (placement m.eventHandlers type slot) ++ [(type, e)] ++
        m.eventHandlers.drop (placement m.eventHandlers type slot) }

/-- `Client::RawCmd`: forward to `httpclient.SendRequest`. -/
def Client.RawCmd {Tree : Type} (c : Client Tree) (method : Method) (url : String)
    (Response : error_code → Nat → String → String → Members Tree →
      CbResult (Members Tree) (Request (Members Tree)))
    (body : String) : Client Tree :=
  { c with httpclient := SendRequest c.httpclient method url Response body }

/-- The response lambda of the subscription request in `WebsocketConnected`: on error a
line on `std::cerr`, otherwise `onConnection(ec)`. -/
def subscriptionLambda {Tree : Type} (ec : error_code) (_status : Nat)
    (_reason _body : String) (m : Members Tree) :
    CbResult (Members Tree) (Request (Members Tree)) :=
  if ec ≠ 0 then
    { app := { m with cerr := m.cerr ++ [CerrLine.subscription ec] },
      submits := [], throws := false }
  else
    { app := (callOnConnection m ec).1, submits := [],
      throws := (callOnConnection m ec).2.isSome }

/-- The `equal_range` of the multimap: the entries whose key is `type`, each with its
position. -/
def equal_range {Tree : Type} (reg : List (String × EventHandler Tree)) (type : String) :
    List (Nat × String × EventHandler Tree) :=
  reg.enum.filter (fun p => p.2.1 == type)

/-- The body of the `for_each` lambda in `RawEvent`: call the handler inside
`try`; `catch (const std::exception&)` and `catch (...)` each write a line. -/
def invokeHandler {Tree : Type} (type msg : String) (tree : Tree) (m : Members Tree)
    (f : Nat × String × EventHandler Tree) : Members Tree :=
  let m1 := { m with handlerCalls := m.handlerCalls ++ [(f.1, msg)] }
  match f.2.2 tree with
  | none => m1
  | some (Exn.std what) =>
    { m1 with cerr := m1.cerr ++ [CerrLine.handlerException type what] }
  | some Exn.other => { m1 with cerr := m1.cerr ++ [CerrLine.handlerUnknown type] }

/-- The lines the two catch clauses of the `for_each` lambda write when the handlers of
`entries` are called in turn with `tree`: nothing for a handler that returns, the line
with its `what()` for a `std::exception`, the other line for anything else raised. -/
def caught {Tree : Type} (type : String) (tree : Tree) :
    List (Nat × String × EventHandler Tree) → List CerrLine
  | [] => []
  | f :: fs =>
    (match f.2.2 tree with
      | none => []
      | some (Exn.std what) => [CerrLine.handlerException type what]
      | some Exn.other => [CerrLine.handlerUnknown type]) ++ caught type tree fs

/-- `Client::RawEvent`.  `FromJson` and `GetType` (the call `Get<std::string>(tree,
{"type"})`) come from `jsontree.h`, which is not among the sources, and are parameters;
a failure of either is an exception derived from `std::exception` carrying its `what()`
text.  The outer `try` has one handler, `catch (const std::exception&)`; any other
exception leaves `RawEvent`. -/
def RawEvent {Tree : Type} (FromJson : String → Except String Tree)
    (GetType : Tree → Except String String) (m : Members Tree) (msg : String) :
    Members Tree × Option Exn :=
  let body : Except Exn (Members Tree) :=
    match FromJson msg with
    | Except.error what => Except.error (Exn.std what)
    | Except.ok tree =>
      match GetType tree with
      | Except.error what => Except.error (Exn.std what)
      | Except.ok type =>
        Except.ok ((equal_range m.eventHandlers type).foldl (invokeHandler type msg tree) m)
  match body with
  | Except.ok m1 => (m1, none)
  | Except.error (Exn.std what) =>
    ({ m with cerr := m.cerr ++ [CerrLine.parsing msg what] }, none)
  | Except.error Exn.other => (m, some Exn.other)

/-- The lambda given to `websocket.Receive` in `WebsocketConnected`: on error a line on
`std::cerr`, otherwise `RawEvent(msg)`. -/
def receiveLambda {Tree : Type} (FromJson : String → Except String Tree)
    (GetType : Tree → Except String String) (m : Members Tree) (msg : String)
    (e : error_code) : Members Tree × Option Exn :=
  if e ≠ 0 then ({ m with cerr := m.cerr ++ [CerrLine.wsReceive e] }, none)
  else RawEvent FromJson GetType m msg

/-- `Client::WebsocketConnected`: call `websocket.Receive`, then submit the subscription
request (the body argument is defaulted, so it is empty). -/
def Client.WebsocketConnected {Tree : Type} (c : Client Tree) : Client Tree :=
  { members := { c.members with websocket := c.members.websocket.Receive },
    httpclient := SendRequest c.httpclient Method.post
      ("/ari/applications/" ++ c.members.application ++
        "/subscription?eventSource=channel:,endpoint:,bridge:,deviceState:")
      subscriptionLambda "" }

/-- The lambda given to `websocket.Connect` in `Client::Connect`: on error
`onConnection(e)`, otherwise `WebsocketConnected()`. -/
def Client.connectLambda {Tree : Type} (c : Client Tree) (e : error_code) :
    Client Tree × Option Exn :=
  if e ≠ 0 then
    ({ c with members := (callOnConnection c.members e).1 }, (callOnConnection c.members e).2)
  else (c.WebsocketConnected, none)

/-- The reactor delivers the completion of `op` to the client's command transport. -/
def Client.complete {Tree : Type} (c : Client Tree) (op : Op) (res : IoResult) :
    Client Tree × Exit :=
  ({ members := (aricpp.complete op res c.members c.httpclient).app,
     httpclient := (aricpp.complete op res c.members c.httpclient).client },
   (aricpp.complete op res c.members c.httpclient).exit)

/-! ## Concrete inputs used to exercise the statements -/

/-- A response handler that returns normally and does nothing. -/
def quietHandler (_e : error_code) (_status : Nat) (_reason _body : String) (app : Unit) :
    CbResult Unit (Request Unit) :=
  { app := app, submits := [], throws := false }

/-- A response handler that raises. -/
def raisingHandler (_e : error_code) (_status : Nat) (_reason _body : String) (app : Unit) :
    CbResult Unit (Request Unit) :=
  { app := app, submits := [], throws := true }

/-- The request `GET url` with an empty body and a quiet handler. -/
def quietGet (url : String) : Request Unit :=
  Request.mk Method.get url "" quietHandler

/-- A completion without error (the message is used by a read only). -/
def ioOk (resp : Response) : IoResult :=
  { e := 0, resp := resp, socketOpen := true }

/-- A completion with error code `e`. -/
def ioErr (e : error_code) : IoResult :=
  { e := e, resp := { result := 0, reason := "", body := "" }, socketOpen := false }

/-- The answer `200 OK` with body `{"ok":true}`. -/
def okTrue : Response :=
  { result := 200, reason := "OK", body := "\x7b\"ok\":true\x7d" }

/-- A transport on which `GET /status` with an empty body was submitted and resolve,
connect and write have completed without error: the read is outstanding. -/
def awaitingStatus : HttpClient Unit :=
  (run [ioOk okTrue, ioOk okTrue, ioOk okTrue] ()
    (submit (HttpClient.init Unit "localhost" "8088" "Basic YTpi") (quietGet "/status"))).client

/-- A transport on which two requests were submitted and only the resolve is outstanding. -/
def resolvingTwo : HttpClient Unit :=
  (["/ari/channels", "/ari/endpoints"].map quietGet).foldl submit
    (HttpClient.init Unit "localhost" "8088" "Basic YTpi")

/-- A stand-in document type for the examples: the top-level fields of an object. -/
abbrev DemoTree := List (String × String)

/-- A stand-in for `FromJson` that knows three payloads and rejects everything else. -/
def demoFromJson (msg : String) : Except String DemoTree :=
  if msg = "\x7b\"type\":\"Ping\",\"id\":1\x7d" then Except.ok [("type", "Ping"), ("id", "1")]
  else if msg = "\x7b\"type\":\"Bye\"\x7d" then Except.ok [("type", "Bye")]
  else if msg = "\x7b\"id\":1\x7d" then Except.ok [("id", "1")]
  else Except.error "syntax error"

/-- A stand-in for `Get<std::string>(tree, {"type"})`. -/
def demoGetType (tree : DemoTree) : Except String String :=
  match tree.lookup "type" with
  | some v => Except.ok v
  | none => Except.error "No such node (type)"

/-- A client for application `app` on `localhost:8088`. -/
def demoClient : Client DemoTree :=
  Client.init DemoTree (fun u p => "Basic " ++ u ++ ":" ++ p) "localhost" "8088"
    "asterisk" "secret" "app"

/-- The members of `demoClient` after four `OnEvent` calls, in this order: a handler for
`Ping` that raises a `std::exception`, a handler for `Pong` that returns, a handler for
`Ping` that raises something else, a handler for `Ping` that returns.  The container puts
a new key in front and an equal key right after the first entry of its group, so the
iteration order is: `Pong`, then `Ping` first, fourth and third registered. -/
def demoMembers : Members DemoTree :=
  OnEvent (OnEvent (OnEvent (OnEvent demoClient.members
    "Ping" (fun _ => some (Exn.std "boom")) 0)
    "Pong" (fun _ => none) 0)
    "Ping" (fun _ => some Exn.other) 1)
    "Ping" (fun _ => none) 1

/-- The handler calls a dispatch of `msg` on the registry `reg` is expected to make: none
when the payload has no type, otherwise one per entry of that type. -/
def expectedCalls {Tree : Type} (FromJson : String → Except String Tree)
    (GetType : Tree → Except String String) (reg : List (String × EventHandler Tree))
    (msg : String) : List (Nat × String) :=
  match FromJson msg with
  | Except.error _ => []
  | Except.ok tree =>
    match GetType tree with
    | Except.error _ => []
    | Except.ok type => (equal_range reg type).map (fun f => (f.1, msg))

/-- The payload `{"type":"Ping","id":1}`. -/
def pingPayload : String := "\x7b\"type\":\"Ping\",\"id\":1\x7d"

/-- A connect handler that returns normally. -/
def quietConnectHandler : ConnectHandler := fun _ => none

/-- The run in which `Connect` is called, the handshake succeeds, and the resolve started
for the subscription request fails with error 111. -/
def subscriptionFails : Client DemoTree × Exit :=
  ((demoClient.Connect quietConnectHandler 0).connectLambda 0).1.complete
    Op.resolve (ioErr 111)

/-- The run in which two requests are submitted, the handler of the first raises, and
resolve, connect, write and read complete without error. -/
def raisingFirst : Outcome Unit :=
  run [ioOk okTrue, ioOk okTrue, ioOk okTrue, ioOk okTrue] ()
    ([Request.mk Method.get "/ari/channels" "" raisingHandler,
      quietGet "/ari/endpoints"].foldl submit
      (HttpClient.init Unit "localhost" "8088" "Basic YTpi"))

/-! ## Reachable states of the transport -/

/-- The states of the transport an application can bring about: the constructor, then
`SendRequest` calls and completions of operations, in any number and any order, whatever
the network reports and whatever the handlers do. -/
inductive Reachable {σ : Type} : HttpClient σ → Prop where
  | init (host port auth : String) : Reachable (HttpClient.init σ host port auth)
  | send (c : HttpClient σ) (method : Method) (url : String)
      (res : error_code → Nat → String → String → σ → CbResult σ (Request σ))
      (body : String) : Reachable c → Reachable (SendRequest c method url res body)
  | completion (c : HttpClient σ) (op : Op) (res : IoResult) (app : σ) :
      Reachable c → Reachable (complete op res app c).client

/-- The states reached when every completion lambda returned normally, that is, when no
response handler raised. -/
inductive ReachableNormally {σ : Type} : HttpClient σ → Prop where
  | init (host port auth : String) : ReachableNormally (HttpClient.init σ host port auth)
  | send (c : HttpClient σ) (method : Method) (url : String)
      (res : error_code → Nat → String → String → σ → CbResult σ (Request σ))
      (body : String) :
      ReachableNormally c → ReachableNormally (SendRequest c method url res body)
  | completion (c : HttpClient σ) (op : Op) (res : IoResult) (app : σ) :
      ReachableNormally c → (complete op res app c).exit = Exit.normal →
      ReachableNormally (complete op res app c).client

/-- The message `Write` prepares for the request `r` on the transport `c`. -/
def prepared {σ : Type} (c : HttpClient σ) (r : Request σ) : HttpRequest :=
  { version := 11, method := ToBeast r.method, target := r.url,
    host := c.host ++ ":" ++ c.port, authorization := c.auth,
    user_agent := "aricpp", content_type := "application/json", body := r.body }

/-- The message was prepared from the request: same verb, target and body. -/
def describes {σ : Type} (w : HttpRequest) (r : Request σ) : Prop :=
  w.method = ToBeast r.method ∧ w.target = r.url ∧ w.body = r.body

/-- What the handler of `q` does when `CallBack` runs for the completion `res`: called
with the error alone when there is one, with the message read otherwise. -/
def reply {σ : Type} (q : Request σ) (res : IoResult) (app : σ) :
    CbResult σ (Request σ) :=
  if res.e ≠ 0 then q.onResponse res.e 0 "" "" app
  else q.onResponse res.e res.resp.result res.resp.reason res.resp.body app

/-- At most one operation is outstanding, and one that is outstanding has a request at
the head of the queue; a write or read outstanding carries the message prepared from that
head. -/
def OneInFlight {σ : Type} (c : HttpClient σ) : Prop :=
  c.outstanding.length ≤ 1 ∧
  ∀ op ∈ c.outstanding, ∃ q rest, c.pending = q :: rest ∧
    ((op = Op.write ∨ op = Op.read) → ∃ w, c.request = some w ∧ describes w q)

/-- A completion that did not reach `CallBack`: the lambda returned, queue and record of
calls are as before, and exactly one operation was started: the connect, or the write of
the message prepared from the head `q`, or (after a write) the read, with the message
untouched. -/
def Advanced {σ : Type} (c : HttpClient σ) (q : Request σ) (op : Op) (o : Outcome σ) :
    Prop :=
  o.exit = Exit.normal ∧ o.client.pending = c.pending ∧ o.client.invoked = c.invoked ∧
  (o.client.outstanding = [Op.connect] ∨
    (o.client.outstanding = [Op.write] ∧ o.client.request = some (prepared c q)) ∨
    (o.client.outstanding = [Op.read] ∧ op = Op.write ∧ o.client.request = c.request))

/-- A completion that reached `CallBack` with `q` at the head and `rest` behind it: the
handler of `q` was called; either it raised, and then the queue only grew at the tail and
nothing is outstanding, or it returned, and then `q` is gone, the queue is `rest` followed
by what was submitted, and either it is empty and nothing is outstanding or the write of
the message prepared from its head is. -/
def Answered {σ : Type} (c : HttpClient σ) (q : Request σ) (rest : List (Request σ))
    (o : Outcome σ) : Prop :=
  (∃ e status reason body, o.client.invoked = c.invoked ++
    [{ req := q, e := e, status := status, reason := reason, body := body }]) ∧
  ((o.exit = Exit.exception ∧ o.client.outstanding = [] ∧
      ∃ subs, o.client.pending = q :: rest ++ subs) ∨
   (o.exit = Exit.normal ∧ ∃ subs, o.client.pending = rest ++ subs ∧
      ((rest ++ subs = [] ∧ o.client.outstanding = []) ∨
       ∃ n t, rest ++ subs = n :: t ∧ o.client.outstanding = [Op.write] ∧
         o.client.request = some (prepared c n))))

/-! ## Replaying a record of handler calls -/

/-- What the recorded handler calls do to the application: starting from `app`, each
handler is applied in turn to the arguments recorded for it and to the state left by the
call before.  The result is the final application state and everything the handlers
submitted meanwhile, in call order. -/
def replay {σ : Type} (app : σ) : List (Invocation σ) → σ × List (Request σ)
  | [] => (app, [])
  | inv :: rest =>
    ((replay (inv.req.onResponse inv.e inv.status inv.reason inv.body app).app rest).1,
     (inv.req.onResponse inv.e inv.status inv.reason inv.body app).submits ++
       (replay (inv.req.onResponse inv.e inv.status inv.reason inv.body app).app rest).2)

/-- The requests whose handler has not been called yet: the queue, without its head when
the run was left by a handler that raised (that handler's request is still queued). -/
def unanswered {σ : Type} (o : Outcome σ) : List (Request σ) :=
  match o.exit with
  | Exit.exception => o.client.pending.tail
  | _ => o.client.pending

/-- How far the transport has come: two for every handler call made, plus the stage of the
outstanding operation. -/
def progress {σ : Type} (c : HttpClient σ) : Nat :=
  2 * c.invoked.length +
    (match c.outstanding with
      | Op.connect :: _ => 1
      | Op.write :: _ => 2
      | Op.read :: _ => 3
      | _ => 0)

/-- A completion that reached `CallBack` with `q` at the head and `rest` behind it, seen
from the application: the handler of `q` was applied to the recorded arguments and to
`app`, and the application is left as that call leaves it; when it raised, the queue is
the old one followed by what it submitted; when it returned, `q` is gone, the queue is
`rest` followed by what it submitted, and the transport is idle or writing. -/
def Called {σ : Type} (c : HttpClient σ) (app : σ) (q : Request σ)
    (rest : List (Request σ)) (o : Outcome σ) : Prop :=
  ∃ inv : Invocation σ, inv.req = q ∧ o.client.invoked = c.invoked ++ [inv] ∧
    o.app = (q.onResponse inv.e inv.status inv.reason inv.body app).app ∧
    ((o.exit = Exit.exception ∧ o.client.pending =
        q :: rest ++ (q.onResponse inv.e inv.status inv.reason inv.body app).submits) ∨
     (o.exit = Exit.normal ∧ o.client.pending =
        rest ++ (q.onResponse inv.e inv.status inv.reason inv.body app).submits ∧
      Cycle o.client ∧
      (o.client.outstanding = [] ∨ 2 * c.invoked.length + 4 ≤ progress o.client)))

/-- The run of C1: the requests `rs` are submitted on a fresh transport, then the
completions `ios` are delivered. -/
def burst {σ : Type} (host port auth : String) (app : σ) (rs : List (Request σ))
    (ios : List IoResult) : Outcome σ :=
  run ios app (rs.foldl submit (HttpClient.init σ host port auth))

/-- A request whose handler appends what it was called with (its url, the error code and
the status) to the application state, a list. -/
def loggingGet (url : String) : Request (List (String × Nat × Nat)) :=
  Request.mk Method.get url ""
    (fun e status _ _ app => { app := app ++ [(url, e, status)], submits := [], throws := false })

/-! ## Lemmas on the transport -/

theorem submit_pending {σ : Type} (c : HttpClient σ) (r : Request σ) :
    (submit c r).pending = c.pending ++ [r] := by
  cases r
  simp only [submit, SendRequest, Request.method, Request.url, Request.onResponse,
    Request.body]
  split <;> rfl

theorem submit_nonempty {σ : Type} (c : HttpClient σ) (r : Request σ)
    (h : c.pending ≠ []) : submit c r = { c with pending := c.pending ++ [r] } := by
  have hlen : (c.pending ++ [r]).length > 1 := by
    cases hp : c.pending with
    | nil => exact absurd hp h
    | cons a t => simp
  cases r
  simp only [submit, SendRequest, Request.method, Request.url, Request.onResponse,
    Request.body]
  rw [if_pos hlen]

theorem foldl_submit_nonempty {σ : Type} (rs : List (Request σ)) (c : HttpClient σ)
    (h : c.pending ≠ []) : rs.foldl submit c = { c with pending := c.pending ++ rs } := by
  induction rs generalizing c with
  | nil => simp
  | cons r rs ih =>
    rw [List.foldl_cons, submit_nonempty c r h, ih _ (by simp)]
    simp

theorem foldl_submit_init {σ : Type} (host port auth : String) (r : Request σ)
    (rs : List (Request σ)) :
    (r :: rs).foldl submit (HttpClient.init σ host port auth) =
      { HttpClient.init σ host port auth with
        pending := r :: rs, outstanding := [Op.resolve] } := by
  have h1 : submit (HttpClient.init σ host port auth) r =
      { HttpClient.init σ host port auth with
        pending := [r], outstanding := [Op.resolve] } := by
    cases r
    simp [submit, SendRequest, HttpClient.init, Request.method, Request.url,
      Request.onResponse, Request.body]
  rw [List.foldl_cons, h1, foldl_submit_nonempty _ _ (by simp)]
  rfl

theorem CallBack_invoked {σ : Type} (app : σ) (c : HttpClient σ) (q : Request σ)
    (rest : List (Request σ)) (e status : Nat) (reason body : String)
    (hp : c.pending = q :: rest) :
    (CallBack app c e status reason body).client.invoked =
      c.invoked ++ [{ req := q, e := e, status := status, reason := reason, body := body }] := by
  unfold CallBack
  rw [hp]
  simp only
  rw [foldl_submit_nonempty _ _ (by simp [hp])]
  split
  · rfl
  · split
    · split <;> rfl
    · simp only [Write]
      split <;> rfl

theorem CallBack_app {σ : Type} (app : σ) (c : HttpClient σ) (q : Request σ)
    (rest : List (Request σ)) (e status : Nat) (reason body : String)
    (hp : c.pending = q :: rest) :
    (CallBack app c e status reason body).app =
      (q.onResponse e status reason body app).app := by
  unfold CallBack
  rw [hp]
  simp only
  split
  · rfl
  · split <;> rfl

theorem CallBack_returns {σ : Type} (app : σ) (c : HttpClient σ) (q : Request σ)
    (rest : List (Request σ)) (e status : Nat) (reason body : String)
    (hp : c.pending = q :: rest)
    (hr : (q.onResponse e status reason body app).throws = false) :
    (CallBack app c e status reason body).exit = Exit.normal ∧
    (CallBack app c e status reason body).app = (q.onResponse e status reason body app).app ∧
    (CallBack app c e status reason body).client.pending =
      rest ++ (q.onResponse e status reason body app).submits ∧
    (CallBack app c e status reason body).client.outstanding =
      (if (rest ++ (q.onResponse e status reason body app).submits).isEmpty then c.outstanding
       else c.outstanding ++ [Op.write]) ∧
    (rest ++ (q.onResponse e status reason body app).submits = [] →
      (CallBack app c e status reason body).client.socketOpen = false) := by
  unfold CallBack
  rw [hp]
  simp only
  rw [foldl_submit_nonempty _ _ (by simp [hp])]
  simp only [hr, hp, Bool.false_eq_true, if_false, List.cons_append, List.tail_cons]
  cases hq : rest ++ (q.onResponse e status reason body app).submits with
  | nil =>
    simp only [List.isEmpty_nil, if_true, true_and, forall_true_left]
    split <;> simp_all
  | cons n t =>
    simp [Write]

theorem CallBack_throws {σ : Type} (app : σ) (c : HttpClient σ) (q : Request σ)
    (rest : List (Request σ)) (e status : Nat) (reason body : String)
    (hp : c.pending = q :: rest)
    (hr : (q.onResponse e status reason body app).throws = true) :
    (CallBack app c e status reason body).exit = Exit.exception ∧
    (CallBack app c e status reason body).client.pending =
      q :: rest ++ (q.onResponse e status reason body app).submits ∧
    (CallBack app c e status reason body).client.outstanding = c.outstanding := by
  unfold CallBack
  rw [hp]
  simp only
  rw [foldl_submit_nonempty _ _ (by simp [hp])]
  simp [hr, hp]

theorem CallBack_plain {σ : Type} (app : σ) (c : HttpClient σ) (q : Request σ)
    (rest : List (Request σ)) (e status : Nat) (reason body : String)
    (hp : c.pending = q :: rest) (hq : q.plain) :
    (CallBack app c e status reason body).exit = Exit.normal ∧
    (CallBack app c e status reason body).client.pending = rest ∧
    (CallBack app c e status reason body).client.outstanding =
      (if rest.isEmpty then c.outstanding else c.outstanding ++ [Op.write]) ∧
    served (CallBack app c e status reason body).client = served c ++ [q] := by
  obtain ⟨h1, _, h3, h4, _⟩ :=
    CallBack_returns app c q rest e status reason body hp (hq e status reason body app).2
  have hs := (hq e status reason body app).1
  rw [hs, List.append_nil] at h3 h4
  refine ⟨h1, h3, h4, ?_⟩
  simp [served, CallBack_invoked app c q rest e status reason body hp]

theorem CallBack_cycle {σ : Type} (app : σ) (c : HttpClient σ) (q : Request σ)
    (rest : List (Request σ)) (e status : Nat) (reason body : String)
    (hp : c.pending = q :: rest) (ho : c.outstanding = []) (hq : q.plain)
    (hrest : ∀ r ∈ rest, r.plain) :
    (CallBack app c e status reason body).exit = Exit.normal ∧
    Cycle (CallBack app c e status reason body).client ∧
    (∀ r ∈ (CallBack app c e status reason body).client.pending, r.plain) ∧
    served (CallBack app c e status reason body).client ++
      (CallBack app c e status reason body).client.pending = served c ++ c.pending ∧
    fuel (CallBack app c e status reason body).client ≤ 2 * rest.length := by
  obtain ⟨h1, h2, h3, h4⟩ := CallBack_plain app c q rest e status reason body hp hq
  refine ⟨h1, ?_, ?_, ?_, ?_⟩
  · cases rest with
    | nil => left; simp [h2, h3, ho]
    | cons n t => right; simp [h2, h3, ho]
  · rw [h2]; exact hrest
  · rw [h2, h4, hp]; simp
  · cases rest with
    | nil => simp [fuel, h3, ho]
    | cons n t => simp [fuel, h3, ho, h2]

theorem step_plain {σ : Type} (res : IoResult) (app : σ) (c : HttpClient σ)
    (hc : Cycle c) (hpl : ∀ r ∈ c.pending, r.plain) :
    (step res app c).exit = Exit.normal ∧ Cycle (step res app c).client ∧
    (∀ r ∈ (step res app c).client.pending, r.plain) ∧
    served (step res app c).client ++ (step res app c).client.pending =
      served c ++ c.pending ∧
    fuel (step res app c).client ≤ fuel c - 1 := by
  rcases hc with ⟨hp, ho⟩ | ⟨hp, op, ho⟩
  · simp [step, ho, hp, Cycle, fuel]
  · obtain ⟨q, rest, hq⟩ := List.exists_cons_of_ne_nil hp
    have hqp : q.plain := hpl q (by simp [hq])
    have hrest : ∀ r ∈ rest, r.plain := fun r hr => hpl r (by simp [hq, hr])
    have hcb : ∀ (c1 : HttpClient σ) (e status : Nat) (reason body : String),
        c1.pending = q :: rest → c1.outstanding = [] → served c1 = served c →
        (CallBack app c1 e status reason body).exit = Exit.normal ∧
        Cycle (CallBack app c1 e status reason body).client ∧
        (∀ r ∈ (CallBack app c1 e status reason body).client.pending, r.plain) ∧
        served (CallBack app c1 e status reason body).client ++
          (CallBack app c1 e status reason body).client.pending = served c ++ c.pending ∧
        fuel (CallBack app c1 e status reason body).client ≤ 2 * rest.length := by
      intro c1 e status reason body h1 h2 h3
      have := CallBack_cycle app c1 q rest e status reason body h1 h2 hqp hrest
      rw [h3, h1, ← hq] at this
      exact this
    have hne : ¬ (0 ≠ 0) := fun h => h rfl
    cases op
    · -- resolve
      have hf : fuel c = 2 * (rest.length + 1) + 2 := by simp [fuel, ho, hq]
      simp only [step, ho, complete, List.mem_singleton, if_true, List.erase_cons_head,
        resolveHandler]
      by_cases he : res.e = 0
      · rw [he, if_neg hne]
        refine ⟨rfl, ?_, ?_, ?_, ?_⟩
        · right; simp [Connect, hq]
        · simpa [Connect] using hpl
        · simp [Connect, served]
        · simp [Connect, fuel, ho]
      · rw [if_pos he]
        obtain ⟨a1, a2, a3, a4, a5⟩ :=
          hcb { c with outstanding := [] } res.e 0 "" "" hq rfl rfl
        refine ⟨a1, a2, a3, a4, ?_⟩
        rw [hf]
        omega
    · -- connect
      have hf : fuel c = 2 * (rest.length + 1) + 1 := by simp [fuel, ho, hq]
      simp only [step, ho, complete, List.mem_singleton, if_true, List.erase_cons_head,
        connectHandler]
      by_cases he : res.e = 0
      · rw [he, if_neg hne]
        simp only [Write, hq]
        refine ⟨trivial, ?_, ?_, ?_, ?_⟩
        · right; simp
        · simpa [hq] using hpl
        · simp [served, hq]
        · simp [fuel, ho, hq]
      · rw [if_pos he]
        obtain ⟨a1, a2, a3, a4, a5⟩ :=
          hcb { c with outstanding := [],
                       socketOpen := if res.e = 0 then true else res.socketOpen }
            res.e 0 "" "" hq rfl rfl
        refine ⟨a1, a2, a3, a4, ?_⟩
        rw [hf]
        omega
    · -- write
      have hf : fuel c = 2 * (rest.length + 1) := by simp [fuel, ho, hq]
      simp only [step, ho, complete, List.mem_singleton, if_true, List.erase_cons_head,
        writeHandler]
      by_cases he : res.e = 0
      · rw [he, if_neg hne]
        refine ⟨rfl, ?_, ?_, ?_, ?_⟩
        · right; simp [ReadResponse, hq]
        · simpa [ReadResponse] using hpl
        · simp [ReadResponse, served]
        · simp [ReadResponse, fuel, ho, hq]
      · rw [if_pos he]
        obtain ⟨a1, a2, a3, a4, a5⟩ :=
          hcb { c with outstanding := [] } res.e 0 "" "" hq rfl rfl
        refine ⟨a1, a2, a3, a4, ?_⟩
        rw [hf]
        omega
    · -- read
      have hf : fuel c = 2 * (rest.length + 1) - 1 := by simp [fuel, ho, hq]
      simp only [step, ho, complete, List.mem_singleton, if_true, List.erase_cons_head,
        readHandler]
      have key : ∀ (e status : Nat) (reason body : String),
          (CallBack app { c with outstanding := [], resp := some res.resp }
              e status reason body).exit = Exit.normal ∧ _ :=
        fun e status reason body =>
          hcb { c with outstanding := [], resp := some res.resp } e status reason body
            hq rfl rfl
      by_cases he : res.e = 0
      · rw [he, if_neg hne]
        obtain ⟨a1, a2, a3, a4, a5⟩ := key 0 res.resp.result res.resp.reason res.resp.body
        simp only [a1]
        refine ⟨trivial, ?_, a3, a4, ?_⟩
        · simpa [Cycle] using a2
        · rw [hf]
          have : ∀ x : HttpClient σ, fuel { x with resp := none } = fuel x := fun _ => rfl
          rw [this]
          omega
      · rw [if_pos he]
        obtain ⟨a1, a2, a3, a4, a5⟩ := key res.e 0 "" ""
        simp only [a1]
        refine ⟨trivial, ?_, a3, a4, ?_⟩
        · simpa [Cycle] using a2
        · rw [hf]
          have : ∀ x : HttpClient σ, fuel { x with resp := none } = fuel x := fun _ => rfl
          rw [this]
          omega

theorem run_plain {σ : Type} (ios : List IoResult) (app : σ) (c : HttpClient σ)
    (hc : Cycle c) (hpl : ∀ r ∈ c.pending, r.plain) :
    (run ios app c).exit = Exit.normal ∧ Cycle (run ios app c).client ∧
    served (run ios app c).client ++ (run ios app c).client.pending =
      served c ++ c.pending ∧
    fuel (run ios app c).client ≤ fuel c - ios.length := by
  induction ios generalizing app c with
  | nil => exact ⟨rfl, hc, rfl, by simp [run]⟩
  | cons res ios ih =>
    obtain ⟨s1, s2, s3, s4, s5⟩ := step_plain res app c hc hpl
    simp only [run, s1]
    obtain ⟨r1, r2, r3, r4⟩ := ih (step res app c).app (step res app c).client s2 s3
    refine ⟨r1, r2, r3.trans s4, ?_⟩
    simp only [List.length_cons]
    omega

theorem Cycle_idle_of_fuel {σ : Type} (c : HttpClient σ) (hc : Cycle c) (hf : fuel c = 0) :
    c.pending = [] ∧ c.outstanding = [] := by
  rcases hc with h | ⟨hp, op, ho⟩
  · exact h
  · obtain ⟨q, rest, hq⟩ := List.exists_cons_of_ne_nil hp
    cases op <;> simp [fuel, ho, hq] at hf
    omega

theorem quietGet_plain (url : String) : (quietGet url).plain :=
  fun _ _ _ _ _ => ⟨rfl, rfl⟩

theorem quietGet_list_plain (urls : List String) : ∀ r ∈ urls.map quietGet, r.plain := by
  intro r hr
  obtain ⟨u, _, rfl⟩ := List.mem_map.mp hr
  exact quietGet_plain u

theorem run_idle {σ : Type} (ios : List IoResult) (app : σ) (c : HttpClient σ)
    (h : c.outstanding = []) :
    run ios app c = { app := app, client := c, exit := Exit.normal } := by
  induction ios with
  | nil => rfl
  | cons res ios ih =>
    have hs : step res app c = { app := app, client := c, exit := Exit.normal } := by
      simp [step, h]
    simp only [run, hs]
    exact ih

theorem progress_le {σ : Type} (c : HttpClient σ) :
    progress c ≤ 2 * c.invoked.length + 3 := by
  unfold progress
  split <;> omega

theorem CallBack_called {σ : Type} (app : σ) (c c1 : HttpClient σ) (q : Request σ)
    (rest : List (Request σ)) (e status : Nat) (reason body : String)
    (hp : c1.pending = q :: rest) (ho : c1.outstanding = [])
    (hi : c1.invoked = c.invoked) :
    Called c app q rest (CallBack app c1 e status reason body) := by
  refine ⟨{ req := q, e := e, status := status, reason := reason, body := body }, rfl,
    by rw [CallBack_invoked app c1 q rest e status reason body hp, hi],
    CallBack_app app c1 q rest e status reason body hp, ?_⟩
  cases hthrow : (q.onResponse e status reason body app).throws with
  | true =>
    obtain ⟨h1, h2, _⟩ := CallBack_throws app c1 q rest e status reason body hp hthrow
    exact Or.inl ⟨h1, h2⟩
  | false =>
    obtain ⟨h1, _, h3, h4, _⟩ :=
      CallBack_returns app c1 q rest e status reason body hp hthrow
    have hinv := CallBack_invoked app c1 q rest e status reason body hp
    refine Or.inr ⟨h1, h3, ?_, ?_⟩
    · cases hq : rest ++ (q.onResponse e status reason body app).submits with
      | nil =>
        left
        rw [hq] at h3 h4
        exact ⟨h3, by simpa [ho] using h4⟩
      | cons n t =>
        right
        rw [hq] at h3 h4
        exact ⟨by rw [h3]; simp, Op.write, by simpa [ho] using h4⟩
    · cases hq : rest ++ (q.onResponse e status reason body app).submits with
      | nil =>
        left
        rw [hq] at h4
        simpa [ho] using h4
      | cons n t =>
        right
        rw [hq] at h4
        have ho1 : (CallBack app c1 e status reason body).client.outstanding = [Op.write] := by
          simpa [ho] using h4
        simp only [progress, ho1, hinv, hi, List.length_append, List.length_singleton]
        omega

theorem Called_clear_resp {σ : Type} (c : HttpClient σ) (app : σ) (q : Request σ)
    (rest : List (Request σ)) (o : Outcome σ) (h : Called c app q rest o) :
    Called c app q rest
      (match o.exit with
        | Exit.normal => { o with client := { o.client with resp := none } }
        | _ => o) := by
  cases he : o.exit with
  | normal =>
    simp only
    obtain ⟨inv, h1, h2, h3, h4⟩ := h
    refine ⟨inv, h1, h2, h3, ?_⟩
    rcases h4 with ⟨hx, _⟩ | ⟨_, hp, hc, hpr⟩
    · rw [he] at hx; exact absurd hx (by decide)
    · exact Or.inr ⟨rfl, hp, hc, hpr⟩
  | exception => exact h
  | assertion => exact h

theorem step_trace {σ : Type} (res : IoResult) (app : σ) (c : HttpClient σ)
    (hc : Cycle c) :
    (c.outstanding = [] ∧
      step res app c = { app := app, client := c, exit := Exit.normal }) ∨
    ((step res app c).exit = Exit.normal ∧ (step res app c).app = app ∧
      (step res app c).client.invoked = c.invoked ∧
      (step res app c).client.pending = c.pending ∧ Cycle (step res app c).client ∧
      progress c + 1 ≤ progress (step res app c).client) ∨
    ∃ q rest, c.pending = q :: rest ∧ Called c app q rest (step res app c) := by
  rcases hc with ⟨hp, ho⟩ | ⟨hp, op, ho⟩
  · left
    exact ⟨ho, by simp [step, ho]⟩
  · right
    obtain ⟨q, rest, hq⟩ := List.exists_cons_of_ne_nil hp
    have hne : ¬ ((0 : error_code) ≠ 0) := fun h => h rfl
    cases op
    · simp only [step, ho, complete, List.mem_singleton, if_true, List.erase_cons_head,
        resolveHandler]
      by_cases he : res.e = 0
      · left
        rw [he, if_neg hne]
        refine ⟨rfl, rfl, rfl, rfl, ?_, ?_⟩
        · right; simp [Connect, hq]
        · simp [progress, Connect, ho]
      · right
        rw [if_pos he]
        exact ⟨q, rest, hq, CallBack_called app c _ q rest res.e 0 "" "" hq rfl rfl⟩
    · simp only [step, ho, complete, List.mem_singleton, if_true, List.erase_cons_head,
        connectHandler]
      by_cases he : res.e = 0
      · left
        rw [he, if_neg hne]
        simp only [Write, hq]
        refine ⟨trivial, trivial, trivial, ?_, ?_, ?_⟩
        · simp [hq]
        · right; simp
        · simp [progress, ho]
      · right
        rw [if_pos he]
        exact ⟨q, rest, hq, CallBack_called app c _ q rest res.e 0 "" "" hq rfl rfl⟩
    · simp only [step, ho, complete, List.mem_singleton, if_true, List.erase_cons_head,
        writeHandler]
      by_cases he : res.e = 0
      · left
        rw [he, if_neg hne]
        refine ⟨rfl, rfl, rfl, rfl, ?_, ?_⟩
        · right; simp [ReadResponse, hq]
        · simp [progress, ReadResponse, ho]
      · right
        rw [if_pos he]
        exact ⟨q, rest, hq, CallBack_called app c _ q rest res.e 0 "" "" hq rfl rfl⟩
    · right
      simp only [step, ho, complete, List.mem_singleton, if_true, List.erase_cons_head,
        readHandler]
      refine ⟨q, rest, hq, ?_⟩
      apply Called_clear_resp
      split
      · exact CallBack_called app c _ q rest res.e 0 "" "" hq rfl rfl
      · exact CallBack_called app c _ q rest _ _ _ _ hq rfl rfl

theorem run_trace {σ : Type} (ios : List IoResult) (app : σ) (c : HttpClient σ)
    (hc : Cycle c) :
    ∃ new : List (Invocation σ),
      (run ios app c).client.invoked = c.invoked ++ new ∧
      (run ios app c).app = (replay app new).1 ∧
      new.map Invocation.req ++ unanswered (run ios app c) =
        c.pending ++ (replay app new).2 ∧
      (run ios app c).exit ≠ Exit.assertion ∧
      ((run ios app c).exit = Exit.normal → Cycle (run ios app c).client ∧
        ((run ios app c).client.outstanding = [] ∨
          progress c + ios.length ≤ progress (run ios app c).client)) := by
  induction ios generalizing app c with
  | nil =>
    exact ⟨[], by simp [run], rfl, by simp [run, unanswered, replay], by simp [run],
      fun _ => ⟨hc, Or.inr (by simp [run])⟩⟩
  | cons res ios ih =>
    rcases step_trace res app c hc with ⟨ho, _⟩ | ⟨hx, ha, hi, hp, hcy, hpr⟩ | ⟨q, rest, hq, hcalled⟩
    · rw [run_idle _ app c ho]
      exact ⟨[], by simp, rfl, by simp [unanswered, replay], by simp,
        fun _ => ⟨hc, Or.inl ho⟩⟩
    · have ih1 := ih (step res app c).app (step res app c).client hcy
      rw [ha] at ih1
      simp only [run, hx]
      rw [ha]
      obtain ⟨new, n1, n2, n3, n4, n5⟩ := ih1
      rw [hi] at n1
      rw [hp] at n3
      refine ⟨new, n1, n2, n3, n4, fun hn => ?_⟩
      obtain ⟨m1, m2⟩ := n5 hn
      refine ⟨m1, ?_⟩
      rcases m2 with m2 | m2
      · exact Or.inl m2
      · right
        simp only [List.length_cons]
        omega
    · obtain ⟨inv, hreq, hinv, happ, hcase⟩ := hcalled
      rcases hcase with ⟨hx, hp⟩ | ⟨hx, hp, hcy, hpr⟩
      · simp only [run, hx]
        refine ⟨[inv], hinv, ?_, ?_, by decide, fun hn => absurd hn (by decide)⟩
        · simp [replay, hreq, happ]
        · simp [unanswered, hx, hp, replay, hreq, hq]
      · obtain ⟨new, n1, n2, n3, n4, n5⟩ :=
          ih (step res app c).app (step res app c).client hcy
        simp only [run, hx]
        refine ⟨inv :: new, ?_, ?_, ?_, n4, fun hn => ?_⟩
        · rw [n1, hinv]; simp
        · rw [n2, happ]; simp [replay, hreq]
        · rw [hp] at n3
          simp only [List.map_cons, List.cons_append, replay, hreq, hq]
          rw [n3, happ]
          simp
        · obtain ⟨m1, m2⟩ := n5 hn
          refine ⟨m1, ?_⟩
          rcases hpr with hidle | hpr
          · left
            rw [run_idle _ _ _ hidle]
            exact hidle
          · rcases m2 with m2 | m2
            · exact Or.inl m2
            · right
              have := progress_le c
              simp only [List.length_cons]
              omega

/-! ## Lemmas on the dispatch -/

theorem foldl_invokeHandler {Tree : Type} (type msg : String) (tree : Tree)
    (l : List (Nat × String × EventHandler Tree)) (m : Members Tree) :
    (l.foldl (invokeHandler type msg tree) m).eventHandlers = m.eventHandlers ∧
    (l.foldl (invokeHandler type msg tree) m).handlerCalls =
      m.handlerCalls ++ l.map (fun f => (f.1, msg)) := by
  induction l generalizing m with
  | nil => simp
  | cons f l ih =>
    obtain ⟨h1, h2⟩ := ih (invokeHandler type msg tree m f)
    have hf : (invokeHandler type msg tree m f).eventHandlers = m.eventHandlers ∧
        (invokeHandler type msg tree m f).handlerCalls = m.handlerCalls ++ [(f.1, msg)] := by
      unfold invokeHandler
      split <;> exact ⟨rfl, rfl⟩
    rw [List.foldl_cons, h1, h2, hf.1, hf.2]
    simp

theorem foldl_invokeHandler_eq {Tree : Type} (type msg : String) (tree : Tree)
    (l : List (Nat × String × EventHandler Tree)) (m : Members Tree) :
    l.foldl (invokeHandler type msg tree) m =
      { m with
        handlerCalls := m.handlerCalls ++ l.map (fun f => (f.1, msg)),
        cerr := m.cerr ++ caught type tree l } := by
  induction l generalizing m with
  | nil => simp [caught]
  | cons f l ih =>
    rw [List.foldl_cons, ih]
    unfold invokeHandler
    cases hf : f.2.2 tree with
    | none => simp [caught, hf]
    | some x =>
      cases x with
      | std what => simp [caught, hf]
      | other => simp [caught, hf]

theorem caught_length {Tree : Type} (type : String) (tree : Tree)
    (l : List (Nat × String × EventHandler Tree)) :
    (caught type tree l).length = (l.filter (fun f => (f.2.2 tree).isSome)).length := by
  induction l with
  | nil => rfl
  | cons f l ih =>
    cases hf : f.2.2 tree with
    | none => simp [caught, hf, ih]
    | some x =>
      cases x with
      | std what => simp [caught, hf, ih]
      | other => simp [caught, hf, ih]

theorem RawEvent_calls {Tree : Type} (FromJson : String → Except String Tree)
    (GetType : Tree → Except String String) (m : Members Tree) (msg : String) :
    (RawEvent FromJson GetType m msg).2 = none ∧
    (RawEvent FromJson GetType m msg).1.eventHandlers = m.eventHandlers ∧
    (RawEvent FromJson GetType m msg).1.handlerCalls =
      m.handlerCalls ++ expectedCalls FromJson GetType m.eventHandlers msg := by
  cases hF : FromJson msg with
  | error what => simp [RawEvent, expectedCalls, hF]
  | ok tree =>
    cases hG : GetType tree with
    | error what => simp [RawEvent, expectedCalls, hF, hG]
    | ok type =>
      obtain ⟨h1, h2⟩ :=
        foldl_invokeHandler type msg tree (equal_range m.eventHandlers type) m
      simp only [RawEvent, expectedCalls, hF, hG]
      exact ⟨trivial, h1, h2⟩

theorem count_le_one_of_nodup {α : Type} [BEq α] [LawfulBEq α] (a : α) (l : List α)
    (h : l.Nodup) : l.count a ≤ 1 := by
  induction l with
  | nil => simp
  | cons b l ih =>
    rw [List.nodup_cons] at h
    rw [List.count_cons]
    by_cases hb : (b == a) = true
    · have hba : b = a := by simpa using hb
      have : l.count a = 0 := List.count_eq_zero_of_not_mem (hba ▸ h.1)
      simp [hb, this]
    · simpa [hb] using ih h.2

theorem equal_range_count {Tree : Type} (reg : List (String × EventHandler Tree))
    (type msg : String) (i : Nat) (f : String × EventHandler Tree)
    (hf : reg[i]? = some f) :
    ((equal_range reg type).map (fun g => (g.1, msg))).count (i, msg) =
      if f.1 = type then 1 else 0 := by
  have hnd : ((equal_range reg type).map (fun g => (g.1, msg))).Nodup := by
    have h1 : ((equal_range reg type).map Prod.fst).Nodup := by
      have hsub : ((equal_range reg type).map Prod.fst).Sublist (reg.enum.map Prod.fst) :=
        (List.filter_sublist _).map _
      rw [List.enum_map_fst] at hsub
      exact List.Nodup.sublist hsub (List.nodup_range _)
    have h2 : (equal_range reg type).map (fun g => (g.1, msg)) =
        ((equal_range reg type).map Prod.fst).map (fun n => (n, msg)) := by
      simp [List.map_map, Function.comp_def]
    rw [h2]
    exact List.Nodup.map (fun a b hab => by simpa using hab) h1
  have hle := count_le_one_of_nodup (i, msg) _ hnd
  have hmem : (i, msg) ∈ (equal_range reg type).map (fun g => (g.1, msg)) ↔ f.1 = type := by
    simp only [List.mem_map, equal_range, List.mem_filter, Prod.mk.injEq, and_true]
    constructor
    · rintro ⟨g, ⟨hg, hk⟩, rfl⟩
      rw [List.mem_enum_iff_getElem?, hf] at hg
      have : f = g.2 := by simpa using hg
      rw [this]
      simpa using hk
    · intro hk
      exact ⟨(i, f), ⟨List.mk_mem_enum_iff_getElem?.mpr hf, by simpa using hk⟩, rfl⟩
  by_cases hk : f.1 = type
  · have hpos := List.count_pos_iff.mpr (hmem.mpr hk)
    rw [if_pos hk]
    omega
  · rw [if_neg hk]
    exact List.count_eq_zero_of_not_mem (fun h => hk (hmem.mp h))

theorem equal_range_length {Tree : Type} (reg : List (String × EventHandler Tree))
    (type : String) :
    (equal_range reg type).length = (reg.filter (fun p => p.1 == type)).length := by
  have h : (equal_range reg type).map Prod.snd = reg.filter (fun p => p.1 == type) := by
    unfold equal_range
    have := List.enum_map_snd reg
    conv_rhs => rw [← this]
    rw [List.filter_map]
    rfl
  rw [← h, List.length_map]

theorem burst_plain {σ : Type} (host port auth : String) (app : σ)
    (rs : List (Request σ)) (hplain : ∀ r ∈ rs, r.plain) (ios : List IoResult) :
    (run ios app (rs.foldl submit (HttpClient.init σ host port auth))).exit = Exit.normal ∧
    served (run ios app (rs.foldl submit (HttpClient.init σ host port auth))).client ++
      (run ios app (rs.foldl submit (HttpClient.init σ host port auth))).client.pending
        = rs ∧
    (2 * rs.length + 2 ≤ ios.length →
      served (run ios app (rs.foldl submit (HttpClient.init σ host port auth))).client
        = rs ∧
      (run ios app (rs.foldl submit (HttpClient.init σ host port auth))).client.pending
        = [] ∧
      (run ios app (rs.foldl submit (HttpClient.init σ host port auth))).client.outstanding
        = []) := by
  have h0 : Cycle (rs.foldl submit (HttpClient.init σ host port auth)) ∧
      (rs.foldl submit (HttpClient.init σ host port auth)).pending = rs ∧
      served (rs.foldl submit (HttpClient.init σ host port auth)) = [] ∧
      fuel (rs.foldl submit (HttpClient.init σ host port auth)) ≤ 2 * rs.length + 2 := by
    cases rs with
    | nil => simp [HttpClient.init, Cycle, served, fuel]
    | cons r rs =>
      rw [foldl_submit_init]
      simp [HttpClient.init, Cycle, served, fuel]
  obtain ⟨c1, c2, c3, c4⟩ := h0
  obtain ⟨r1, r2, r3, r4⟩ := run_plain ios app _ c1 (by rw [c2]; exact hplain)
  rw [c2, c3, List.nil_append] at r3
  refine ⟨r1, r3, fun hlen => ?_⟩
  obtain ⟨i1, i2⟩ := Cycle_idle_of_fuel _ r2 (by omega)
  rw [i1, List.append_nil] at r3
  exact ⟨r3, i1, i2⟩

theorem loggingGet_list_plain (urls : List String) :
    ∀ r ∈ urls.map loggingGet, r.plain := by
  intro r hr
  obtain ⟨u, _, rfl⟩ := List.mem_map.mp hr
  exact fun _ _ _ _ _ => ⟨rfl, rfl⟩

/-! ## The claims -/

/-- C1: N requests are handed to `SendRequest` on a fresh transport before any
completion, then completions arrive, each with whatever result.  For arbitrary handlers:
no `assert` fails; the application is left exactly as the recorded handler calls leave
it when applied one after the other, so each recorded call did run its handler, with the
recorded arguments, after the calls recorded before it; and the requests whose handler
was called, followed by those not yet answered, are the submission sequence followed by
what the handlers submitted meanwhile, so handlers are called in submission order and
none twice.  When no handler has raised and `2 * N + 2` completions have been delivered,
the first N calls are exactly the N submitted requests, in order.  When the handlers
return and submit nothing, no lambda fails, and after `2 * N + 2` completions the
handlers called are exactly the submitted requests, each once, and the transport is
idle. -/
theorem fifo_in_submission_order {σ : Type} (host port auth : String) (app : σ)
    (rs : List (Request σ)) (ios : List IoResult) :
    (burst host port auth app rs ios).exit ≠ Exit.assertion ∧
    (burst host port auth app rs ios).app =
      (replay app (burst host port auth app rs ios).client.invoked).1 ∧
    served (burst host port auth app rs ios).client ++
      unanswered (burst host port auth app rs ios) =
        rs ++ (replay app (burst host port auth app rs ios).client.invoked).2 ∧
    ((burst host port auth app rs ios).exit = Exit.normal →
      2 * rs.length + 2 ≤ ios.length →
      (served (burst host port auth app rs ios).client).take rs.length = rs) ∧
    ((∀ r ∈ rs, r.plain) →
      (burst host port auth app rs ios).exit = Exit.normal ∧
      (2 * rs.length + 2 ≤ ios.length →
        served (burst host port auth app rs ios).client = rs ∧
        (burst host port auth app rs ios).client.pending = [] ∧
        (burst host port auth app rs ios).client.outstanding = [])) := by
  have h0 : Cycle (rs.foldl submit (HttpClient.init σ host port auth)) ∧
      (rs.foldl submit (HttpClient.init σ host port auth)).pending = rs ∧
      (rs.foldl submit (HttpClient.init σ host port auth)).invoked = [] ∧
      progress (rs.foldl submit (HttpClient.init σ host port auth)) = 0 := by
    cases rs with
    | nil => simp [HttpClient.init, Cycle, progress]
    | cons r rs =>
      rw [foldl_submit_init]
      simp [HttpClient.init, Cycle, progress]
  obtain ⟨c1, c2, c3, c4⟩ := h0
  obtain ⟨new, n1, n2, n3, n4, n5⟩ := run_trace ios app _ c1
  rw [c3, List.nil_append] at n1
  rw [c2] at n3
  rw [c4, Nat.zero_add] at n5
  unfold burst
  rw [n1]
  have hserved : served (run ios app (rs.foldl submit (HttpClient.init σ host port auth))).client
      = new.map Invocation.req := by
    simp [served, n1]
  rw [hserved]
  refine ⟨n4, n2, n3, fun hn hlen => ?_, fun hplain => ?_⟩
  · obtain ⟨hcy, hfar⟩ := n5 hn
    have hun : unanswered (run ios app (rs.foldl submit (HttpClient.init σ host port auth)))
        = (run ios app (rs.foldl submit (HttpClient.init σ host port auth))).client.pending := by
      simp [unanswered, hn]
    rw [hun] at n3
    have hlenN : rs.length ≤ (new.map Invocation.req).length ∨
        (run ios app (rs.foldl submit (HttpClient.init σ host port auth))).client.pending
          = [] := by
      rcases hfar with hidle | hfar
      · right
        rcases hcy with ⟨hp, _⟩ | ⟨_, op, ho⟩
        · exact hp
        · rw [hidle] at ho
          exact absurd ho (by simp)
      · left
        have hle := progress_le
          (run ios app (rs.foldl submit (HttpClient.init σ host port auth))).client
        rw [n1] at hle
        rw [List.length_map]
        omega
    rcases hlenN with hge | hnil
    · have h1 : ((new.map Invocation.req) ++
          (run ios app (rs.foldl submit (HttpClient.init σ host port auth))).client.pending).take
            rs.length = (new.map Invocation.req).take rs.length :=
        List.take_append_of_le_length hge
      rw [← h1, n3]
      simp
    · rw [hnil, List.append_nil] at n3
      rw [n3]
      simp
  · obtain ⟨p1, p2, p3⟩ := burst_plain host port auth app rs hplain ios
    refine ⟨p1, fun hlen => ?_⟩
    obtain ⟨q1, q2, q3⟩ := p3 hlen
    rw [hserved] at q1
    exact ⟨q1, q2, q3⟩

/-- Witness of C1: two requests whose handlers log what they are called with; resolve and
connect succeed, the first request is answered `200`, the write of the second fails with
error 32.  The application has seen the two calls in submission order, with these
arguments. -/
theorem fifo_in_submission_order_witness :
    (∀ r ∈ ["/ari/asterisk/info", "/ari/bridges"].map loggingGet, r.plain) ∧
    (burst "localhost" "8088" "Basic YTpi" [] (["/ari/asterisk/info", "/ari/bridges"].map loggingGet)
      [ioOk okTrue, ioOk okTrue, ioOk okTrue, ioOk okTrue, ioErr 32, ioErr 32]).app
      = [("/ari/asterisk/info", 0, 200), ("/ari/bridges", 32, 0)] ∧
    served (burst "localhost" "8088" "Basic YTpi" []
      (["/ari/asterisk/info", "/ari/bridges"].map loggingGet)
      [ioOk okTrue, ioOk okTrue, ioOk okTrue, ioOk okTrue, ioErr 32, ioErr 32]).client
      = ["/ari/asterisk/info", "/ari/bridges"].map loggingGet :=
  ⟨loggingGet_list_plain _,
   (fifo_in_submission_order "localhost" "8088" "Basic YTpi" []
      (["/ari/asterisk/info", "/ari/bridges"].map loggingGet)
      [ioOk okTrue, ioOk okTrue, ioOk okTrue, ioOk okTrue, ioErr 32, ioErr 32]).2.1.trans
      (by decide),
   (((fifo_in_submission_order "localhost" "8088" "Basic YTpi" []
      (["/ari/asterisk/info", "/ari/bridges"].map loggingGet)
      [ioOk okTrue, ioOk okTrue, ioOk okTrue, ioOk okTrue, ioErr 32, ioErr 32]).2.2.2.2
      (loggingGet_list_plain _)).2 (by decide)).1⟩

/-- C2: when a read completes without error while a request is at the head of the queue,
the head's handler is called, once, with no error, the numeric value of the status of the
message read, its reason and its body, and the application is left as that call leaves
it. -/
theorem response_reaches_head_handler {σ : Type} (app : σ) (c : HttpClient σ)
    (q : Request σ) (rest : List (Request σ)) (res : IoResult)
    (hq : c.pending = q :: rest) (hop : Op.read ∈ c.outstanding) (hok : res.e = 0) :
    (complete Op.read res app c).client.invoked = c.invoked ++
      [{ req := q, e := 0, status := res.resp.result, reason := res.resp.reason,
         body := res.resp.body }] ∧
    (complete Op.read res app c).app =
      (q.onResponse 0 res.resp.result res.resp.reason res.resp.body app).app := by
  have hne : ¬ (0 ≠ 0) := fun h => h rfl
  simp only [complete, hop, if_true, readHandler, hok, if_neg hne]
  have h := CallBack_invoked app
    { c with outstanding := c.outstanding.erase Op.read, resp := some res.resp }
    q rest 0 res.resp.result res.resp.reason res.resp.body hq
  have ha := CallBack_app app
    { c with outstanding := c.outstanding.erase Op.read, resp := some res.resp }
    q rest 0 res.resp.result res.resp.reason res.resp.body hq
  split
  · exact ⟨h, ha⟩
  · exact ⟨h, ha⟩

/-- Witness of C2: `GET /status` answered with `200 OK` and body `{"ok":true}`. -/
theorem response_reaches_head_handler_witness :
    (awaitingStatus.pending = [quietGet "/status"] ∧ Op.read ∈ awaitingStatus.outstanding ∧
      (ioOk okTrue).e = 0) ∧
    (complete Op.read (ioOk okTrue) () awaitingStatus).client.invoked =
      [{ req := quietGet "/status", e := 0, status := 200, reason := "OK",
         body := "\x7b\"ok\":true\x7d" }] :=
  ⟨⟨rfl, by decide, rfl⟩,
   (response_reaches_head_handler () awaitingStatus (quietGet "/status") [] (ioOk okTrue)
     rfl (by decide) rfl).1⟩

/-- C3: when the resolve, connect, write or read that is outstanding completes with an
error `e` while a request is at the head of the queue, the head's handler is called,
once, with `e`, status `0`, an empty reason and an empty body; and when that handler
returns, the request has been removed: the queue is the requests that were behind it,
followed by what the handler submitted. -/
theorem transport_error_reaches_head_handler {σ : Type} (op : Op) (app : σ)
    (c : HttpClient σ) (q : Request σ) (rest : List (Request σ)) (res : IoResult)
    (hq : c.pending = q :: rest) (hop : op ∈ c.outstanding) (he : res.e ≠ 0) :
    (complete op res app c).client.invoked = c.invoked ++
      [{ req := q, e := res.e, status := 0, reason := "", body := "" }] ∧
    ((q.onResponse res.e 0 "" "" app).throws = false →
      (complete op res app c).exit = Exit.normal ∧
      (complete op res app c).client.pending =
        rest ++ (q.onResponse res.e 0 "" "" app).submits) := by
  cases op
  · simp only [complete, hop, if_true, resolveHandler, if_pos he]
    refine ⟨CallBack_invoked app _ q rest res.e 0 "" "" hq, fun hr => ?_⟩
    obtain ⟨h1, _, h3, _⟩ :=
      CallBack_returns app { c with outstanding := c.outstanding.erase Op.resolve }
        q rest res.e 0 "" "" hq hr
    exact ⟨h1, h3⟩
  · simp only [complete, hop, if_true, connectHandler, if_pos he]
    refine ⟨CallBack_invoked app _ q rest res.e 0 "" "" hq, fun hr => ?_⟩
    obtain ⟨h1, _, h3, _⟩ :=
      CallBack_returns app
        { c with outstanding := c.outstanding.erase Op.connect,
                 socketOpen := if res.e = 0 then true else res.socketOpen }
        q rest res.e 0 "" "" hq hr
    exact ⟨h1, h3⟩
  · simp only [complete, hop, if_true, writeHandler, if_pos he]
    refine ⟨CallBack_invoked app _ q rest res.e 0 "" "" hq, fun hr => ?_⟩
    obtain ⟨h1, _, h3, _⟩ :=
      CallBack_returns app { c with outstanding := c.outstanding.erase Op.write }
        q rest res.e 0 "" "" hq hr
    exact ⟨h1, h3⟩
  · simp only [complete, hop, if_true, readHandler, if_pos he]
    have hi := CallBack_invoked app
      { c with outstanding := c.outstanding.erase Op.read, resp := some res.resp }
      q rest res.e 0 "" "" hq
    constructor
    · split
      · exact hi
      · exact hi
    · intro hr
      obtain ⟨h1, _, h3, _⟩ :=
        CallBack_returns app
          { c with outstanding := c.outstanding.erase Op.read, resp := some res.resp }
          q rest res.e 0 "" "" hq hr
      simp only [h1]
      exact ⟨trivial, h3⟩

/-- Witness of C3: the resolve fails with error 111 while two requests are queued. -/
theorem transport_error_reaches_head_handler_witness :
    (resolvingTwo.pending = [quietGet "/ari/channels", quietGet "/ari/endpoints"] ∧
      Op.resolve ∈ resolvingTwo.outstanding ∧ (ioErr 111).e ≠ 0) ∧
    (complete Op.resolve (ioErr 111) () resolvingTwo).client.invoked =
      resolvingTwo.invoked ++
        [{ req := quietGet "/ari/channels", e := 111, status := 0, reason := "",
           body := "" }] ∧
    (complete Op.resolve (ioErr 111) () resolvingTwo).client.pending =
      [quietGet "/ari/endpoints"] :=
  ⟨⟨rfl, by decide, by decide⟩,
   (transport_error_reaches_head_handler Op.resolve () resolvingTwo
      (quietGet "/ari/channels") [quietGet "/ari/endpoints"] (ioErr 111) rfl (by decide)
      (by decide)).1,
   ((transport_error_reaches_head_handler Op.resolve () resolvingTwo
      (quietGet "/ari/channels") [quietGet "/ari/endpoints"] (ioErr 111) rfl (by decide)
      (by decide)).2 rfl).2⟩

/-- C4: a payload that parses and names event type `T` is dispatched to every handler
registered for `T`.  `RawEvent` returns without an exception, and the state it leaves is
the one before with exactly this added: one handler call for each entry of the
`equal_range` of `T`, in its order, and the lines the handlers that raised made the two
catch clauses write, one line for each such handler, naming `T`.  The calls are as many
as there are entries for `T`; an entry of the registry is called exactly once when its
type is `T` and not at all otherwise.  The handlers are arbitrary: each is applied to the
parsed document and may return, raise a `std::exception` or raise anything else, so a
handler that fails stops neither the ones after it nor the dispatch. -/
theorem dispatch_calls_every_handler_once {Tree : Type}
    (FromJson : String → Except String Tree) (GetType : Tree → Except String String)
    (m : Members Tree) (msg T : String) (tree : Tree)
    (hparse : FromJson msg = Except.ok tree) (htype : GetType tree = Except.ok T) :
    RawEvent FromJson GetType m msg =
      ({ m with
          handlerCalls :=
            m.handlerCalls ++ (equal_range m.eventHandlers T).map (fun g => (g.1, msg)),
          cerr := m.cerr ++ caught T tree (equal_range m.eventHandlers T) }, none) ∧
    (caught T tree (equal_range m.eventHandlers T)).length =
      ((equal_range m.eventHandlers T).filter (fun g => (g.2.2 tree).isSome)).length ∧
    ((equal_range m.eventHandlers T).map (fun g => (g.1, msg))).length =
      (m.eventHandlers.filter (fun p => p.1 == T)).length ∧
    ∀ (i : Nat) (f : String × EventHandler Tree), m.eventHandlers[i]? = some f →
      ((equal_range m.eventHandlers T).map (fun g => (g.1, msg))).count (i, msg) =
        if f.1 = T then 1 else 0 := by
  refine ⟨?_, caught_length T tree _, ?_, fun i f hf => equal_range_count _ T msg i f hf⟩
  · simp only [RawEvent, hparse, htype]
    rw [foldl_invokeHandler_eq]
  · rw [List.length_map, equal_range_length]

/-- Witness of C4: the registry holds, in iteration order, a handler for `Pong` and three
for `Ping`, of which the first raises a `std::exception`, the second returns and the
third raises something else; the payload is `{"type":"Ping","id":1}`.  The entries at
positions 1, 2 and 3 are called, the one at position 0 is not, and each of the two
failures has written its line. -/
theorem dispatch_calls_every_handler_once_witness :
    (demoFromJson pingPayload = Except.ok [("type", "Ping"), ("id", "1")] ∧
      demoGetType [("type", "Ping"), ("id", "1")] = Except.ok "Ping") ∧
    demoMembers.eventHandlers.map Prod.fst = ["Pong", "Ping", "Ping", "Ping"] ∧
    (RawEvent demoFromJson demoGetType demoMembers pingPayload).1.handlerCalls =
      [(1, pingPayload), (2, pingPayload), (3, pingPayload)] ∧
    (RawEvent demoFromJson demoGetType demoMembers pingPayload).1.cerr =
      [CerrLine.handlerException "Ping" "boom", CerrLine.handlerUnknown "Ping"] :=
  ⟨⟨rfl, rfl⟩, by decide,
   (congrArg (fun r => r.1.handlerCalls)
      (dispatch_calls_every_handler_once demoFromJson demoGetType demoMembers pingPayload
        "Ping" [("type", "Ping"), ("id", "1")] rfl rfl).1).trans (by decide),
   (congrArg (fun r => r.1.cerr)
      (dispatch_calls_every_handler_once demoFromJson demoGetType demoMembers pingPayload
        "Ping" [("type", "Ping"), ("id", "1")] rfl rfl).1).trans (by decide)⟩

/-- C5: a payload that parses and names an event type for which the registry holds no
entry changes nothing at all: no handler is called (of this type or of any other),
nothing is written, no exception leaves `RawEvent` and the registry is the same. -/
theorem dispatch_without_handler_is_silent {Tree : Type}
    (FromJson : String → Except String Tree) (GetType : Tree → Except String String)
    (m : Members Tree) (msg T : String) (tree : Tree)
    (hparse : FromJson msg = Except.ok tree) (htype : GetType tree = Except.ok T)
    (hnone : ∀ p ∈ m.eventHandlers, p.1 ≠ T) :
    RawEvent FromJson GetType m msg = (m, none) := by
  have hr : equal_range m.eventHandlers T = [] := by
    unfold equal_range
    rw [List.filter_eq_nil_iff]
    intro p hp
    have := hnone p.2 (List.snd_mem_of_mem_enum hp)
    simpa using this
  simp [RawEvent, hparse, htype, hr]

/-- Witness of C5: the payload `{"type":"Bye"}` on a registry with handlers for `Ping`
and `Pong` only. -/
theorem dispatch_without_handler_is_silent_witness :
    (demoFromJson "\x7b\"type\":\"Bye\"\x7d" = Except.ok [("type", "Bye")] ∧
      demoGetType [("type", "Bye")] = Except.ok "Bye" ∧
      ∀ p ∈ demoMembers.eventHandlers, p.1 ≠ "Bye") ∧
    RawEvent demoFromJson demoGetType demoMembers "\x7b\"type\":\"Bye\"\x7d" =
      (demoMembers, none) :=
  ⟨⟨rfl, rfl, by decide⟩,
   dispatch_without_handler_is_silent demoFromJson demoGetType demoMembers
     "\x7b\"type\":\"Bye\"\x7d" "Bye" [("type", "Bye")] rfl rfl (by decide)⟩

/-- C6: a payload that does not parse, or that parses to a document without a string
field `type`, handed to the receive lambda without a stream error: one line is written
to `std::cerr` and nothing else changes (no handler is called, the registry is the same),
no exception leaves the lambda, and a payload received afterwards is dispatched to
exactly the handlers it would have reached without the malformed one. -/
theorem malformed_payload_is_dropped {Tree : Type}
    (FromJson : String → Except String Tree) (GetType : Tree → Except String String)
    (m : Members Tree) (msg : String)
    (hbad : (∃ what, FromJson msg = Except.error what) ∨
      ∃ tree what, FromJson msg = Except.ok tree ∧ GetType tree = Except.error what) :
    (∃ what, receiveLambda FromJson GetType m msg 0 =
      ({ m with cerr := m.cerr ++ [CerrLine.parsing msg what] }, none)) ∧
    ∀ later : String,
      (receiveLambda FromJson GetType (receiveLambda FromJson GetType m msg 0).1 later 0).2
        = none ∧
      (receiveLambda FromJson GetType (receiveLambda FromJson GetType m msg 0).1 later
        0).1.handlerCalls = (receiveLambda FromJson GetType m later 0).1.handlerCalls := by
  have hne : ¬ (0 ≠ 0) := fun h => h rfl
  have hfirst : ∃ what, receiveLambda FromJson GetType m msg 0 =
      ({ m with cerr := m.cerr ++ [CerrLine.parsing msg what] }, none) := by
    rcases hbad with ⟨what, hF⟩ | ⟨tree, what, hF, hG⟩
    · exact ⟨what, by simp [receiveLambda, RawEvent, hF]⟩
    · exact ⟨what, by simp [receiveLambda, RawEvent, hF, hG]⟩
  refine ⟨hfirst, fun later => ?_⟩
  obtain ⟨what, hw⟩ := hfirst
  rw [hw]
  simp only [receiveLambda, if_neg hne]
  obtain ⟨a1, _, a3⟩ := RawEvent_calls FromJson GetType
    { m with cerr := m.cerr ++ [CerrLine.parsing msg what] } later
  obtain ⟨_, _, b3⟩ := RawEvent_calls FromJson GetType m later
  exact ⟨a1, by rw [a3, b3]⟩

/-- Witness of C6: the payload `{"id":1}` has no field `type`. -/
theorem malformed_payload_is_dropped_witness :
    ((∃ what, demoFromJson "\x7b\"id\":1\x7d" = Except.error what) ∨
      ∃ tree what, demoFromJson "\x7b\"id\":1\x7d" = Except.ok tree ∧
        demoGetType tree = Except.error what) ∧
    ∃ what, receiveLambda demoFromJson demoGetType demoMembers "\x7b\"id\":1\x7d" 0 =
      ({ demoMembers with
          cerr := demoMembers.cerr ++ [CerrLine.parsing "\x7b\"id\":1\x7d" what] }, none) :=
  ⟨Or.inr ⟨[("id", "1")], "No such node (type)", rfl, rfl⟩,
   (malformed_payload_is_dropped demoFromJson demoGetType demoMembers "\x7b\"id\":1\x7d"
      (Or.inr ⟨[("id", "1")], "No such node (type)", rfl, rfl⟩)).1⟩

/-- C7, evaluated where the code departs from it: `Connect` is called with a handler,
the handshake succeeds, and the subscription request fails at the resolve with error 111.
The response lambda writes the error to `std::cerr`; `onConnection` is never called, and
the transport is idle again, so nothing will call it later. -/
theorem subscription_failure_is_not_reported :
    subscriptionFails.1.members.connectionCalls = [] ∧
    subscriptionFails.1.members.cerr = [CerrLine.subscription 111] ∧
    subscriptionFails.1.httpclient.pending.length = 0 ∧
    subscriptionFails.1.httpclient.outstanding = [] ∧
    subscriptionFails.2 = Exit.normal := by
  decide

/-- C8: when the stream reports a handshake failure `e` after `Connect(h, retry)`, the
handler is called with `e` and this is the only call added; the facade leaves the
lambda the way the handler does; the stream has received the one `Connect` call and no
`Receive` or `Close`; and the command transport is untouched, so no request was
submitted. -/
theorem handshake_failure_is_reported_once {Tree : Type} (c : Client Tree)
    (h : ConnectHandler) (retry : Nat) (e : error_code) (he : e ≠ 0) :
    ((c.Connect h retry).connectLambda e).1.members.connectionCalls =
      c.members.connectionCalls ++ [e] ∧
    ((c.Connect h retry).connectLambda e).2 = h e ∧
    ((c.Connect h retry).connectLambda e).1.members.websocket =
      { c.members.websocket with
        connects := c.members.websocket.connects ++
          [("/ari/events?api_key=" ++ c.members.user ++ ":" ++ c.members.password ++
              "&app=" ++ c.members.application ++ "&subscribeAll=true", retry)] } ∧
    ((c.Connect h retry).connectLambda e).1.httpclient = c.httpclient := by
  simp [Client.connectLambda, he, Client.Connect, callOnConnection, WebSocket.Connect]

/-- Witness of C8: the handshake of `Connect(h, 0)` fails with error 111. -/
theorem handshake_failure_is_reported_once_witness :
    (111 : error_code) ≠ 0 ∧
    ((demoClient.Connect quietConnectHandler 0).connectLambda 111).1.members.connectionCalls
      = demoClient.members.connectionCalls ++ [111] :=
  ⟨by decide,
   (handshake_failure_is_reported_once demoClient quietConnectHandler 0 111 (by decide)).1⟩

/-- C9: when the stream reports a successful handshake, the facade calls `Receive` once,
with a lambda that hands every payload received without error to `RawEvent`, and appends
exactly one request to the queue of the command transport: a `POST` with an empty body to
the subscription resource of the application, with the event sources `channel:`,
`endpoint:`, `bridge:` and `deviceState:`.  No other call reaches the stream, no handler
is called and no exception leaves the lambda. -/
theorem handshake_success_subscribes {Tree : Type}
    (FromJson : String → Except String Tree) (GetType : Tree → Except String String)
    (c : Client Tree) :
    (c.connectLambda 0).2 = none ∧
    (c.connectLambda 0).1.members =
      { c.members with
        websocket := { c.members.websocket with
          receives := c.members.websocket.receives + 1 } } ∧
    (∀ (m : Members Tree) (msg : String),
      receiveLambda FromJson GetType m msg 0 = RawEvent FromJson GetType m msg) ∧
    (c.connectLambda 0).1.httpclient.pending = c.httpclient.pending ++
      [Request.mk Method.post
        ("/ari/applications/" ++ c.members.application ++
          "/subscription?eventSource=channel:,endpoint:,bridge:,deviceState:")
        "" subscriptionLambda] ∧
    (c.connectLambda 0).1.httpclient.invoked = c.httpclient.invoked := by
  have hne : ¬ ((0 : error_code) ≠ 0) := fun h => h rfl
  refine ⟨?_, ?_, ?_, ?_, ?_⟩
  · simp [Client.connectLambda]
  · simp [Client.connectLambda, Client.WebsocketConnected, WebSocket.Receive]
  · intro m msg
    simp [receiveLambda]
  · simp only [Client.connectLambda, if_neg hne, Client.WebsocketConnected, SendRequest]
    split <;> rfl
  · simp only [Client.connectLambda, if_neg hne, Client.WebsocketConnected, SendRequest]
    split <;> rfl

/-- C10, evaluated where the code departs from it: two requests are queued and the
handler of the first raises when the response arrives.  The exception leaves the
transport; the first request is still at the head of the queue; no operation is
outstanding, so whatever the network delivers afterwards the second handler is never
called; and a request submitted later is only appended, without starting anything. -/
theorem raising_handler_blocks_the_queue :
    raisingFirst.exit = Exit.exception ∧
    raisingFirst.client.pending.map Request.url = ["/ari/channels", "/ari/endpoints"] ∧
    (served raisingFirst.client).map Request.url = ["/ari/channels"] ∧
    raisingFirst.client.outstanding = [] ∧
    (∀ ios : List IoResult,
      (run ios raisingFirst.app raisingFirst.client).client = raisingFirst.client) ∧
    (∀ r : Request Unit,
      (submit raisingFirst.client r).outstanding = [] ∧
      (submit raisingFirst.client r).pending = raisingFirst.client.pending ++ [r]) := by
  refine ⟨by decide, by decide, by decide, by decide, fun ios => ?_, fun r => ?_⟩
  · rw [run_idle ios _ _ (by decide)]
  · have hp : raisingFirst.client.pending ≠ [] := fun h => by
      have hl := congrArg List.length h
      revert hl
      decide
    rw [submit_nonempty _ r hp]
    exact ⟨rfl, rfl⟩

/-! ## Lemmas on reachable states -/

theorem CallBack_cons {σ : Type} (app : σ) (c : HttpClient σ) (q : Request σ)
    (rest : List (Request σ)) (e status : Nat) (reason body : String)
    (hp : c.pending = q :: rest) :
    CallBack app c e status reason body =
      if (q.onResponse e status reason body app).throws then
        { app := (q.onResponse e status reason body app).app,
          client := { c with
            invoked := c.invoked ++
              [{ req := q, e := e, status := status, reason := reason, body := body }],
            pending := q :: rest ++ (q.onResponse e status reason body app).submits },
          exit := Exit.exception }
      else
        match rest ++ (q.onResponse e status reason body app).submits with
        | [] =>
          { app := (q.onResponse e status reason body app).app,
            client := { c with
              invoked := c.invoked ++
                [{ req := q, e := e, status := status, reason := reason, body := body }],
              pending := [], socketOpen := false },
            exit := Exit.normal }
        | n :: t =>
          { app := (q.onResponse e status reason body app).app,
            client := { c with
              invoked := c.invoked ++
                [{ req := q, e := e, status := status, reason := reason, body := body }],
              pending := n :: t, request := some (prepared c n),
              outstanding := c.outstanding ++ [Op.write] },
            exit := Exit.normal } := by
  unfold CallBack
  rw [hp]
  simp only
  rw [foldl_submit_nonempty _ _ (by simp [hp])]
  cases hthrow : (q.onResponse e status reason body app).throws with
  | true => simp [hp]
  | false =>
    simp only [Bool.false_eq_true, if_false, hp, List.cons_append, List.tail_cons]
    cases hq : rest ++ (q.onResponse e status reason body app).submits with
    | nil =>
      simp only [List.isEmpty_nil, if_true]
      cases hs : c.socketOpen <;> simp [hs]
    | cons n t => simp [Write, prepared]

theorem CallBack_next {σ : Type} (app : σ) (c : HttpClient σ) (q : Request σ)
    (rest : List (Request σ)) (e status : Nat) (reason body : String)
    (hp : c.pending = q :: rest)
    (hret : (q.onResponse e status reason body app).throws = false) :
    (CallBack app c e status reason body).exit = Exit.normal ∧
    (CallBack app c e status reason body).client.pending =
      rest ++ (q.onResponse e status reason body app).submits ∧
    (∀ n t, rest ++ (q.onResponse e status reason body app).submits = n :: t →
      (CallBack app c e status reason body).client.outstanding =
        c.outstanding ++ [Op.write] ∧
      (CallBack app c e status reason body).client.request = some (prepared c n) ∧
      (CallBack app c e status reason body).client.socketOpen = c.socketOpen) ∧
    (rest ++ (q.onResponse e status reason body app).submits = [] →
      (CallBack app c e status reason body).client.outstanding = c.outstanding ∧
      (CallBack app c e status reason body).client.socketOpen = false) := by
  rw [CallBack_cons app c q rest e status reason body hp]
  simp only [hret, Bool.false_eq_true, if_false]
  cases hq : rest ++ (q.onResponse e status reason body app).submits with
  | nil => simp
  | cons n t =>
    refine ⟨rfl, rfl, ?_, ?_⟩
    · intro n1 t1 h
      have hn : n = n1 := (List.cons.inj h).1
      subst hn
      exact ⟨rfl, rfl, rfl⟩
    · intro h
      exact absurd h (by simp)

theorem CallBack_answered {σ : Type} (app : σ) (c c1 : HttpClient σ) (q : Request σ)
    (rest : List (Request σ)) (e status : Nat) (reason body : String)
    (hp : c1.pending = q :: rest) (ho : c1.outstanding = [])
    (hi : c1.invoked = c.invoked) (hh : c1.host = c.host) (hpo : c1.port = c.port)
    (ha : c1.auth = c.auth) :
    Answered c q rest (CallBack app c1 e status reason body) := by
  rw [CallBack_cons app c1 q rest e status reason body hp]
  cases hthrow : (q.onResponse e status reason body app).throws with
  | true =>
    simp only [if_true]
    exact ⟨⟨e, status, reason, body, by rw [hi]⟩, Or.inl ⟨rfl, ho, _, rfl⟩⟩
  | false =>
    simp only [Bool.false_eq_true, if_false]
    cases hq : rest ++ (q.onResponse e status reason body app).submits with
    | nil =>
      exact ⟨⟨e, status, reason, body, by rw [hi]⟩,
        Or.inr ⟨rfl, (q.onResponse e status reason body app).submits, hq.symm,
          Or.inl ⟨hq, ho⟩⟩⟩
    | cons n t =>
      refine ⟨⟨e, status, reason, body, by rw [hi]⟩,
        Or.inr ⟨rfl, (q.onResponse e status reason body app).submits, hq.symm,
          Or.inr ⟨n, t, hq, by simp [ho], ?_⟩⟩⟩
      simp [prepared, hh, hpo, ha]

theorem Answered_clear_resp {σ : Type} (c : HttpClient σ) (q : Request σ)
    (rest : List (Request σ)) (o : Outcome σ) (h : Answered c q rest o) :
    Answered c q rest
      (match o.exit with
        | Exit.normal => { o with client := { o.client with resp := none } }
        | _ => o) := by
  cases he : o.exit with
  | normal =>
    simp only
    obtain ⟨h1, h2⟩ := h
    refine ⟨h1, ?_⟩
    rcases h2 with ⟨hx, _⟩ | h2
    · rw [he] at hx; exact absurd hx (by decide)
    · exact Or.inr ⟨rfl, h2.2⟩
  | exception => exact h
  | assertion => exact h

theorem complete_shape {σ : Type} (op : Op) (res : IoResult) (app : σ)
    (c : HttpClient σ) (q : Request σ) (rest : List (Request σ))
    (hq : c.pending = q :: rest) (hone : c.outstanding = [op]) :
    Advanced c q op (complete op res app c) ∨ Answered c q rest (complete op res app c) := by
  cases op
  · simp only [complete, hone, List.mem_singleton, if_true, List.erase_cons_head,
      resolveHandler]
    by_cases he : res.e = 0
    · left
      simp [he, Advanced, Connect]
    · right
      rw [if_pos he]
      exact CallBack_answered app c _ q rest res.e 0 "" "" hq rfl rfl rfl rfl rfl
  · simp only [complete, hone, List.mem_singleton, if_true, List.erase_cons_head,
      connectHandler]
    by_cases he : res.e = 0
    · left
      simp [he, Advanced, Write, hq, prepared]
    · right
      rw [if_pos he]
      exact CallBack_answered app c _ q rest res.e 0 "" "" hq rfl rfl rfl rfl rfl
  · simp only [complete, hone, List.mem_singleton, if_true, List.erase_cons_head,
      writeHandler]
    by_cases he : res.e = 0
    · left
      simp [he, Advanced, ReadResponse]
    · right
      rw [if_pos he]
      exact CallBack_answered app c _ q rest res.e 0 "" "" hq rfl rfl rfl rfl rfl
  · right
    simp only [complete, hone, List.mem_singleton, if_true, List.erase_cons_head,
      readHandler]
    apply Answered_clear_resp
    split
    · exact CallBack_answered app c _ q rest res.e 0 "" "" hq rfl rfl rfl rfl rfl
    · exact CallBack_answered app c _ q rest _ _ _ _ hq rfl rfl rfl rfl rfl

theorem describes_prepared {σ : Type} (c : HttpClient σ) (q : Request σ) :
    describes (prepared c q) q :=
  ⟨rfl, rfl, rfl⟩

theorem OneInFlight_only {σ : Type} (c : HttpClient σ) (h : OneInFlight c) (op : Op)
    (hop : op ∈ c.outstanding) :
    c.outstanding = [op] ∧ ∃ q rest, c.pending = q :: rest ∧
      ((op = Op.write ∨ op = Op.read) → ∃ w, c.request = some w ∧ describes w q) := by
  refine ⟨?_, h.2 op hop⟩
  have hl := h.1
  cases ho : c.outstanding with
  | nil => rw [ho] at hop; exact absurd hop (by simp)
  | cons a t =>
    rw [ho] at hop hl
    cases t with
    | nil =>
      have : op = a := by simpa using hop
      rw [this]
    | cons b u => simp at hl

theorem OneInFlight_init {σ : Type} (host port auth : String) :
    OneInFlight (HttpClient.init σ host port auth) := by
  simp [OneInFlight, HttpClient.init]

theorem OneInFlight_send {σ : Type} (c : HttpClient σ) (h : OneInFlight c)
    (method : Method) (url : String)
    (res : error_code → Nat → String → String → σ → CbResult σ (Request σ))
    (body : String) : OneInFlight (SendRequest c method url res body) := by
  unfold SendRequest
  cases hp : c.pending with
  | nil =>
    have ho : c.outstanding = [] := by
      cases hc : c.outstanding with
      | nil => rfl
      | cons a t =>
        obtain ⟨q, rest, hq, _⟩ := h.2 a (by simp [hc])
        rw [hp] at hq
        exact absurd hq (by simp)
    simp [OneInFlight, hp, ho]
  | cons q rest =>
    simp only [hp, List.cons_append, List.length_cons, gt_iff_lt, Nat.lt_add_left_iff_pos,
      List.length_append, List.length_singleton]
    rw [if_pos (by omega)]
    refine ⟨h.1, fun op hop => ?_⟩
    obtain ⟨q1, rest1, hq1, hw⟩ := h.2 op hop
    rw [hp] at hq1
    obtain ⟨e1, e2⟩ := List.cons.inj hq1
    rw [← e1] at hw
    exact ⟨q, rest ++ [Request.mk method url body res], rfl, hw⟩

theorem OneInFlight_complete {σ : Type} (c : HttpClient σ) (h : OneInFlight c) (op : Op)
    (res : IoResult) (app : σ) : OneInFlight (complete op res app c).client := by
  by_cases hop : op ∈ c.outstanding
  · obtain ⟨hone, q, rest, hq, hw⟩ := OneInFlight_only c h op hop
    rcases complete_shape op res app c q rest hq hone with ha | hb
    · obtain ⟨_, hp, _, hout⟩ := ha
      rcases hout with ho | ⟨ho, hr⟩ | ⟨ho, hopw, hr⟩
      · refine ⟨by simp [ho], fun o ho1 => ⟨q, rest, by rw [hp, hq], fun hwr => ?_⟩⟩
        rw [ho] at ho1
        have : o = Op.connect := by simpa using ho1
        rcases hwr with hx | hx <;> rw [this] at hx <;> exact absurd hx (by decide)
      · exact ⟨by simp [ho], fun o _ => ⟨q, rest, by rw [hp, hq],
          fun _ => ⟨_, hr, describes_prepared c q⟩⟩⟩
      · refine ⟨by simp [ho], fun o _ => ⟨q, rest, by rw [hp, hq], fun _ => ?_⟩⟩
        rw [hr]
        exact hw (Or.inl hopw)
    · obtain ⟨_, hb⟩ := hb
      rcases hb with ⟨_, ho, _⟩ | ⟨_, subs, hp, hrest⟩
      · exact ⟨by simp [ho], fun o ho1 => by rw [ho] at ho1; exact absurd ho1 (by simp)⟩
      · rcases hrest with ⟨_, ho⟩ | ⟨n, t, hnt, ho, hr⟩
        · exact ⟨by simp [ho], fun o ho1 => by rw [ho] at ho1; exact absurd ho1 (by simp)⟩
        · exact ⟨by simp [ho], fun o _ => ⟨n, t, by rw [hp, hnt],
            fun _ => ⟨_, hr, describes_prepared c n⟩⟩⟩
  · simp only [complete, hop, if_false]
    exact h

theorem Reachable.oneInFlight {σ : Type} (c : HttpClient σ) (h : Reachable c) :
    OneInFlight c := by
  induction h with
  | init host port auth => exact OneInFlight_init host port auth
  | send c method url res body _ ih => exact OneInFlight_send c ih method url res body
  | completion c op res app _ ih => exact OneInFlight_complete c ih op res app

theorem ReachableNormally.reachable {σ : Type} (c : HttpClient σ)
    (h : ReachableNormally c) : Reachable c := by
  induction h with
  | init host port auth => exact Reachable.init host port auth
  | send c method url res body _ ih => exact Reachable.send c method url res body ih
  | completion c op res app _ _ ih => exact Reachable.completion c op res app ih

theorem Cycle_send {σ : Type} (c : HttpClient σ) (h : Cycle c) (method : Method)
    (url : String) (res : error_code → Nat → String → String → σ → CbResult σ (Request σ))
    (body : String) : Cycle (SendRequest c method url res body) := by
  unfold SendRequest
  rcases h with ⟨hp, ho⟩ | ⟨hp, op, ho⟩
  · right
    simp [hp, ho]
  · right
    obtain ⟨q, rest, hq⟩ := List.exists_cons_of_ne_nil hp
    simp [hq, ho]

theorem Cycle_complete {σ : Type} (c : HttpClient σ) (h : Cycle c) (op : Op)
    (res : IoResult) (app : σ) (hexit : (complete op res app c).exit = Exit.normal) :
    Cycle (complete op res app c).client := by
  by_cases hop : op ∈ c.outstanding
  · rcases h with ⟨_, ho⟩ | ⟨hp, op1, ho⟩
    · rw [ho] at hop
      exact absurd hop (by simp)
    · have h1 : op = op1 := by simpa [ho] using hop
      subst h1
      obtain ⟨q, rest, hq⟩ := List.exists_cons_of_ne_nil hp
      rcases complete_shape op res app c q rest hq ho with ha | hb
      · obtain ⟨_, hp1, _, hout⟩ := ha
        right
        refine ⟨by rw [hp1]; exact hp, ?_⟩
        rcases hout with ho1 | ⟨ho1, _⟩ | ⟨ho1, _⟩
        · exact ⟨_, ho1⟩
        · exact ⟨_, ho1⟩
        · exact ⟨_, ho1⟩
      · obtain ⟨_, hb⟩ := hb
        rcases hb with ⟨hx, _⟩ | ⟨_, subs, hp1, hrest⟩
        · rw [hexit] at hx
          exact absurd hx (by decide)
        · rcases hrest with ⟨hnil, ho1⟩ | ⟨n, t, hnt, ho1, _⟩
          · left
            exact ⟨by rw [hp1, hnil], ho1⟩
          · right
            exact ⟨by rw [hp1, hnt]; simp, _, ho1⟩
  · simp only [complete, hop, if_false]
    exact h

theorem ReachableNormally.cycle {σ : Type} (c : HttpClient σ)
    (h : ReachableNormally c) : Cycle c := by
  induction h with
  | init host port auth => left; simp [HttpClient.init]
  | send c method url res body _ ih => exact Cycle_send c ih method url res body
  | completion c op res app _ hexit ih => exact Cycle_complete c ih op res app hexit

theorem complete_effect {σ : Type} (c : HttpClient σ) (h : OneInFlight c) (op : Op)
    (res : IoResult) (app : σ) :
    (complete op res app c).exit ≠ Exit.assertion ∧
    ((complete op res app c).client.invoked = c.invoked ∨
      ∃ q rest e status reason body, c.pending = q :: rest ∧
        (complete op res app c).client.invoked = c.invoked ++
          [{ req := q, e := e, status := status, reason := reason, body := body }]) ∧
    ∃ k added, k ≤ 1 ∧ (complete op res app c).client.pending = c.pending.drop k ++ added := by
  by_cases hop : op ∈ c.outstanding
  · obtain ⟨hone, q, rest, hq, _⟩ := OneInFlight_only c h op hop
    rcases complete_shape op res app c q rest hq hone with ha | hb
    · obtain ⟨hx, hp, hi, _⟩ := ha
      refine ⟨by rw [hx]; decide, Or.inl hi, 0, [], by omega, by simp [hp]⟩
    · obtain ⟨⟨e, status, reason, body, hi⟩, hb⟩ := hb
      rcases hb with ⟨hx, _, subs, hp⟩ | ⟨hx, subs, hp, _⟩
      · exact ⟨by rw [hx]; decide, Or.inr ⟨q, rest, e, status, reason, body, hq, hi⟩,
          0, subs, by omega, by simp [hp, hq]⟩
      · exact ⟨by rw [hx]; decide, Or.inr ⟨q, rest, e, status, reason, body, hq, hi⟩,
          1, subs, by omega, by simp [hp, hq]⟩
  · simp only [complete, hop, if_false]
    exact ⟨by decide, Or.inl trivial, 0, [], by omega, by simp⟩

theorem awaitingStatus_reachable : Reachable awaitingStatus :=
  Reachable.completion _ Op.write (ioOk okTrue) ()
    (Reachable.completion _ Op.connect (ioOk okTrue) ()
      (Reachable.completion _ Op.resolve (ioOk okTrue) ()
        (Reachable.send _ Method.get "/status" quietHandler ""
          (Reachable.init "localhost" "8088" "Basic YTpi"))))

/-! ## The claims on `Close` and on the queue discipline -/

/-- C11: `Client::Close` changes nothing but the event stream, on which it calls
`Close` once.  For every client state the command transport is the same afterwards: the
same queue (requests, order, handlers), the same outstanding operations, the same message
in flight and the same record of handler calls, so no response handler was called or
dropped; the registry, the connect handler and everything the facade has written are the
same too. -/
theorem close_touches_only_the_stream {Tree : Type} (c : Client Tree) :
    c.Close.httpclient = c.httpclient ∧
    c.Close.httpclient.pending = c.httpclient.pending ∧
    c.Close.httpclient.outstanding = c.httpclient.outstanding ∧
    c.Close.httpclient.request = c.httpclient.request ∧
    c.Close.httpclient.invoked = c.httpclient.invoked ∧
    c.Close.members.eventHandlers = c.members.eventHandlers ∧
    c.Close.members =
      { c.members with
        websocket := { c.members.websocket with
          closes := c.members.websocket.closes + 1 } } :=
  ⟨rfl, rfl, rfl, rfl, rfl, rfl, rfl⟩

/-- C12: `SendRequest` appends the request at the tail of the queue and changes nothing
else, except that it starts a resolve exactly when the queue was empty before the call;
a resolve that succeeds starts the connect and nothing else.  On a queue that is not
empty any number of submissions only extends the queue, and this is the state in which a
handler runs: whatever the head's handler submits and however it is left, `CallBack`
ends with no operation outstanding that was not outstanding before, other than the write
it starts itself after the pop. -/
theorem send_request_connects_only_when_idle {σ : Type} (c : HttpClient σ)
    (method : Method) (url : String)
    (res : error_code → Nat → String → String → σ → CbResult σ (Request σ))
    (body : String) :
    SendRequest c method url res body =
      { c with
        pending := c.pending ++ [Request.mk method url body res],
        outstanding :=
          if c.pending.isEmpty then c.outstanding ++ [Op.resolve] else c.outstanding } ∧
    (∀ (app : σ) (c1 : HttpClient σ),
      resolveHandler app c1 0 =
        { app := app, client := { c1 with outstanding := c1.outstanding ++ [Op.connect] },
          exit := Exit.normal }) ∧
    (∀ (c1 : HttpClient σ) (subs : List (Request σ)), c1.pending ≠ [] →
      subs.foldl submit c1 = { c1 with pending := c1.pending ++ subs }) ∧
    (∀ (app : σ) (c1 : HttpClient σ) (e status : Nat) (reason text : String),
      ∀ op ∈ (CallBack app c1 e status reason text).client.outstanding,
        op ∈ c1.outstanding ∨ op = Op.write) := by
  refine ⟨?_, ?_, ?_, ?_⟩
  · unfold SendRequest
    cases hp : c.pending with
    | nil => simp
    | cons a t => simp
  · intro app c1
    simp [resolveHandler, Connect]
  · intro c1 subs h
    exact foldl_submit_nonempty subs c1 h
  · intro app c1 e status reason text op hop
    cases hp : c1.pending with
    | nil =>
      simp only [CallBack, hp] at hop
      exact Or.inl hop
    | cons q rest =>
      rw [CallBack_cons app c1 q rest e status reason text hp] at hop
      split at hop
      · exact Or.inl hop
      · split at hop
        · exact Or.inl hop
        · simp only [List.mem_append, List.mem_singleton] at hop
          exact hop

/-- Witness of C12: on the idle transport a submission starts the resolve; a second
submission, made while the first is queued, starts nothing. -/
theorem send_request_connects_only_when_idle_witness :
    (submit (HttpClient.init Unit "localhost" "8088" "Basic YTpi")
      (quietGet "/ari/channels")).outstanding = [Op.resolve] ∧
    resolvingTwo.outstanding = [Op.resolve] ∧
    (SendRequest resolvingTwo Method.get "/ari/bridges" quietHandler "").outstanding =
      [Op.resolve] ∧
    SendRequest resolvingTwo Method.get "/ari/bridges" quietHandler "" =
      { resolvingTwo with
        pending := resolvingTwo.pending ++ [Request.mk Method.get "/ari/bridges" "" quietHandler],
        outstanding :=
          if resolvingTwo.pending.isEmpty then resolvingTwo.outstanding ++ [Op.resolve]
          else resolvingTwo.outstanding } :=
  ⟨by decide, by decide, by decide,
   (send_request_connects_only_when_idle resolvingTwo Method.get "/ari/bridges"
      quietHandler "").1⟩

/-- C13: an operation, the only one outstanding, completes so that `CallBack` runs (with
an error, or a read without error), and the head's handler returns.  Then the head is
gone from the queue, and what follows is decided by the queue alone, the same for a
response and for an error: when a request is left, exactly one operation is started, the
write of the message prepared from the new head, on the socket as the completed
operation left it (no resolve, no connect); when none is left, nothing is outstanding and
the socket is closed. -/
theorem next_step_after_callback {σ : Type} (op : Op) (res : IoResult) (app : σ)
    (c : HttpClient σ) (q : Request σ) (rest : List (Request σ))
    (hq : c.pending = q :: rest) (hone : c.outstanding = [op])
    (hcb : res.e ≠ 0 ∨ op = Op.read) (hret : (reply q res app).throws = false) :
    (complete op res app c).exit = Exit.normal ∧
    (complete op res app c).client.pending = rest ++ (reply q res app).submits ∧
    (∀ n t, rest ++ (reply q res app).submits = n :: t →
      (complete op res app c).client.outstanding = [Op.write] ∧
      (complete op res app c).client.request = some (prepared c n) ∧
      (complete op res app c).client.socketOpen =
        (if op = Op.connect then res.socketOpen else c.socketOpen)) ∧
    (rest ++ (reply q res app).submits = [] →
      (complete op res app c).client.outstanding = [] ∧
      (complete op res app c).client.socketOpen = false) := by
  have hne : ¬ ((0 : error_code) ≠ 0) := fun h => h rfl
  by_cases he : res.e = 0
  · -- a read that succeeded
    have hop : op = Op.read := hcb.resolve_left (fun h => h he)
    subst hop
    have hr : reply q res app =
        q.onResponse 0 res.resp.result res.resp.reason res.resp.body app := by
      simp [reply, he]
    rw [hr] at hret ⊢
    obtain ⟨h1, h2, h3, h4⟩ := CallBack_next app
      { c with outstanding := [], resp := some res.resp } q rest 0 res.resp.result
      res.resp.reason res.resp.body hq hret
    simp only [complete, hone, List.mem_singleton, if_true, List.erase_cons_head,
      readHandler, he, if_neg hne, h1]
    refine ⟨trivial, h2, fun n t hnt => ?_, fun hnil => ?_⟩
    · obtain ⟨a, b, d⟩ := h3 n t hnt
      exact ⟨a, b, by simpa using d⟩
    · exact h4 hnil
  · have hr : reply q res app = q.onResponse res.e 0 "" "" app := by
      simp [reply, he]
    rw [hr] at hret ⊢
    cases op
    · obtain ⟨h1, h2, h3, h4⟩ := CallBack_next app { c with outstanding := [] } q rest
        res.e 0 "" "" hq hret
      simp only [complete, hone, List.mem_singleton, if_true, List.erase_cons_head,
        resolveHandler, if_pos he]
      refine ⟨h1, h2, fun n t hnt => ?_, h4⟩
      obtain ⟨a, b, d⟩ := h3 n t hnt
      exact ⟨a, b, by simpa using d⟩
    · obtain ⟨h1, h2, h3, h4⟩ := CallBack_next app
        { c with outstanding := [],
                 socketOpen := if res.e = 0 then true else res.socketOpen }
        q rest res.e 0 "" "" hq hret
      simp only [complete, hone, List.mem_singleton, if_true, List.erase_cons_head,
        connectHandler, if_pos he]
      refine ⟨h1, h2, fun n t hnt => ?_, h4⟩
      obtain ⟨a, b, d⟩ := h3 n t hnt
      exact ⟨a, b, by simpa [he] using d⟩
    · obtain ⟨h1, h2, h3, h4⟩ := CallBack_next app { c with outstanding := [] } q rest
        res.e 0 "" "" hq hret
      simp only [complete, hone, List.mem_singleton, if_true, List.erase_cons_head,
        writeHandler, if_pos he]
      refine ⟨h1, h2, fun n t hnt => ?_, h4⟩
      obtain ⟨a, b, d⟩ := h3 n t hnt
      exact ⟨a, b, by simpa using d⟩
    · obtain ⟨h1, h2, h3, h4⟩ := CallBack_next app
        { c with outstanding := [], resp := some res.resp } q rest res.e 0 "" "" hq hret
      simp only [complete, hone, List.mem_singleton, if_true, List.erase_cons_head,
        readHandler, if_pos he, h1]
      refine ⟨trivial, h2, fun n t hnt => ?_, fun hnil => ?_⟩
      · obtain ⟨a, b, d⟩ := h3 n t hnt
        exact ⟨a, b, by simpa using d⟩
      · exact h4 hnil

/-- Witness of C13: the resolve fails while two requests are queued; the handler of the
first returns, and the write of the second is started, and nothing else. -/
theorem next_step_after_callback_witness :
    (resolvingTwo.pending = [quietGet "/ari/channels", quietGet "/ari/endpoints"] ∧
      resolvingTwo.outstanding = [Op.resolve] ∧
      ((ioErr 111).e ≠ 0 ∨ Op.resolve = Op.read) ∧
      (reply (quietGet "/ari/channels") (ioErr 111) ()).throws = false) ∧
    (complete Op.resolve (ioErr 111) () resolvingTwo).client.pending =
      [quietGet "/ari/endpoints"] ∧
    (complete Op.resolve (ioErr 111) () resolvingTwo).client.outstanding = [Op.write] :=
  ⟨⟨rfl, rfl, Or.inl (by decide), rfl⟩,
   (next_step_after_callback Op.resolve (ioErr 111) () resolvingTwo
      (quietGet "/ari/channels") [quietGet "/ari/endpoints"] rfl rfl (Or.inl (by decide))
      rfl).2.1,
   ((next_step_after_callback Op.resolve (ioErr 111) () resolvingTwo
      (quietGet "/ari/channels") [quietGet "/ari/endpoints"] rfl rfl (Or.inl (by decide))
      rfl).2.2.1 (quietGet "/ari/endpoints") [] rfl).1⟩

/-- C14: in every state reached from the constructor by `SendRequest` calls and
completions in any order, whatever the network reports and whatever the handlers do: at
most one operation is outstanding; an outstanding operation has a request at the head of
the queue, and a write or read outstanding carries the message prepared from that head;
a completion calls no handler or exactly the head's; `SendRequest` appends at the tail;
a completion leaves the queue as it was, or without its head, followed by what was
submitted meanwhile, so requests are never reordered.  When no handler has raised, there
is more: the queue is empty and nothing is outstanding, or it is not empty and exactly one
operation is outstanding. -/
theorem one_operation_in_flight {σ : Type} (c : HttpClient σ) (h : Reachable c) :
    c.outstanding.length ≤ 1 ∧
    (∀ op ∈ c.outstanding, ∃ q rest, c.pending = q :: rest ∧
      ((op = Op.write ∨ op = Op.read) → ∃ w, c.request = some w ∧ describes w q)) ∧
    (∀ (op : Op) (res : IoResult) (app : σ),
      (complete op res app c).client.invoked = c.invoked ∨
      ∃ q rest e status reason body, c.pending = q :: rest ∧
        (complete op res app c).client.invoked = c.invoked ++
          [{ req := q, e := e, status := status, reason := reason, body := body }]) ∧
    (∀ (method : Method) (url : String)
      (res : error_code → Nat → String → String → σ → CbResult σ (Request σ))
      (body : String),
      (SendRequest c method url res body).pending =
        c.pending ++ [Request.mk method url body res]) ∧
    (∀ (op : Op) (res : IoResult) (app : σ), ∃ k added, k ≤ 1 ∧
      (complete op res app c).client.pending = c.pending.drop k ++ added) ∧
    (ReachableNormally c → Cycle c) := by
  have hinv := Reachable.oneInFlight c h
  refine ⟨hinv.1, hinv.2, fun op res app => (complete_effect c hinv op res app).2.1,
    fun method url res body => ?_, fun op res app => (complete_effect c hinv op res app).2.2,
    fun hn => ReachableNormally.cycle c hn⟩
  simp only [SendRequest]
  split <;> rfl

/-- Witness of C14: `GET /status` was submitted and written; the read is the one
operation outstanding. -/
theorem one_operation_in_flight_witness :
    Reachable awaitingStatus ∧ awaitingStatus.outstanding = [Op.read] ∧
    awaitingStatus.outstanding.length ≤ 1 :=
  ⟨awaitingStatus_reachable, by decide,
   (one_operation_in_flight awaitingStatus awaitingStatus_reachable).1⟩

/-- C15: in every state reached from the constructor by `SendRequest` calls and
completions (in particular those whose handlers return normally, with or without
re-entrant submissions), an operation that is outstanding finds the queue not empty, and
no completion fails an `assert`: neither the one in `CallBack` nor the one in `Write`. -/
theorem assertions_never_fail {σ : Type} (c : HttpClient σ) (h : Reachable c) :
    (c.outstanding ≠ [] → c.pending ≠ []) ∧
    ∀ (op : Op) (res : IoResult) (app : σ),
      (complete op res app c).exit ≠ Exit.assertion := by
  have hinv := Reachable.oneInFlight c h
  refine ⟨fun ho => ?_, fun op res app => (complete_effect c hinv op res app).1⟩
  obtain ⟨op, rest, hop⟩ := List.exists_cons_of_ne_nil ho
  obtain ⟨q, r, hq, _⟩ := hinv.2 op (by simp [hop])
  simp [hq]

/-- Witness of C15: the read of `GET /status` completes; the handler finds its request. -/
theorem assertions_never_fail_witness :
    Reachable awaitingStatus ∧
    (complete Op.read (ioOk okTrue) () awaitingStatus).exit ≠ Exit.assertion :=
  ⟨awaitingStatus_reachable,
   (assertions_never_fail awaitingStatus awaitingStatus_reachable).2 Op.read (ioOk okTrue) ()⟩

end aricpp
